import Mathlib

/-!
Verification development for the cashweb-backends repository.

Byte strings are modelled as `List Nat` (each element a byte value), machine
integers as `Nat`/`Int` with explicit modular reduction where overflow can
occur, RocksDB as association lists with lexicographic-range scans, and
fallible Rust code as `Except`/`Option` (`Option.none` models a panic).
Cryptographic primitives (SHA-256, secp256k1 operations, protobuf codecs
that live in generated code) are parameters of the embedded functions; the
control flow around them is translated directly from the source.
-/

namespace Cashweb

/-- Byte strings. -/
abbrev Bytes := List Nat

/-- Lexicographic order on byte strings, as implemented by `Ord` for Rust
slices and used by RocksDB for key ordering: compare element-wise; a strict
proper-prefix is smaller. -/
def lexLe : Bytes → Bytes → Bool
  | [], _ => true
  | _ :: _, [] => false
  | a :: as, b :: bs =>
    if a < b then true
    else if b < a then false
    else lexLe as bs

/-- Strict lexicographic order on byte strings. -/
def lexLt : Bytes → Bytes → Bool
  | [], [] => false
  | [], _ :: _ => true
  | _ :: _, [] => false
  | a :: as, b :: bs =>
    if a < b then true
    else if b < a then false
    else lexLt as bs

theorem lexLe_refl (a : Bytes) : lexLe a a = true := by
  induction a with
  | nil => rfl
  | cons x xs ih => simp [lexLe, ih]

/-- Stripping a common prefix preserves lexicographic comparison. -/
theorem lexLe_append_same (c a b : Bytes) :
    lexLe (c ++ a) (c ++ b) = lexLe a b := by
  induction c with
  | nil => rfl
  | cons x xs ih => simp [lexLe, ih]

/-- For equal-length distinct byte strings the comparison is decided before
either end, hence suffixes are irrelevant. -/
theorem lexLe_append_of_ne (a b u v : Bytes) (hlen : a.length = b.length)
    (hne : a ≠ b) : lexLe (a ++ u) (b ++ v) = lexLe a b := by
  induction a generalizing b with
  | nil =>
    cases b with
    | nil => exact absurd rfl hne
    | cons y ys => simp at hlen
  | cons x xs ih =>
    cases b with
    | nil => simp at hlen
    | cons y ys =>
      by_cases hxy : x = y
      · subst hxy
        have hxs : xs ≠ ys := by
          intro h; exact hne (by rw [h])
        have hl : xs.length = ys.length := by simpa using hlen
        simp [lexLe, ih ys hl hxs]
      · rcases Nat.lt_or_ge x y with h | h
        · simp [lexLe, h]
        · have h' : y < x := Nat.lt_of_le_of_ne h (fun e => hxy e.symm)
          simp [lexLe, h', Nat.not_lt.mpr (Nat.le_of_lt h')]

theorem lexLe_antisymm (a b : Bytes) (h₁ : lexLe a b = true)
    (h₂ : lexLe b a = true) : a = b := by
  induction a generalizing b with
  | nil =>
    cases b with
    | nil => rfl
    | cons y ys => simp [lexLe] at h₂
  | cons x xs ih =>
    cases b with
    | nil => simp [lexLe] at h₁
    | cons y ys =>
      rcases Nat.lt_or_ge x y with h | h
      · simp [lexLe, h, Nat.not_lt.mpr (Nat.le_of_lt h)] at h₂
      · rcases Nat.lt_or_ge y x with h' | h'
        · simp [lexLe, h', Nat.not_lt.mpr (Nat.le_of_lt h')] at h₁
        · have hxy : x = y := Nat.le_antisymm h' h
          subst hxy
          simp only [lexLe, Nat.lt_irrefl, if_false] at h₁ h₂
          rw [ih ys h₁ h₂]

/-- A byte string is `≤` any of its extensions. -/
theorem lexLe_append_right (a u : Bytes) : lexLe a (a ++ u) = true := by
  induction a with
  | nil => rfl
  | cons x xs ih => simp [lexLe, ih]

/-- Big-endian encoding of the low `8*w` bits of `n`, `w` bytes wide; models
Rust `to_be_bytes`. -/
def beBytes : Nat → Nat → Bytes
  | 0, _ => []
  | w + 1, n => n % 256 ^ (w + 1) / 256 ^ w :: beBytes w (n % 256 ^ w)

theorem beBytes_length (w n : Nat) : (beBytes w n).length = w := by
  induction w generalizing n with
  | zero => rfl
  | succ w ih => simp [beBytes, ih]

theorem beBytes_mod (w n : Nat) : beBytes w (n % 256 ^ w) = beBytes w n := by
  cases w with
  | zero => rfl
  | succ w =>
    simp only [beBytes, Nat.mod_mod_of_dvd _ dvd_rfl, Nat.mod_mod_of_dvd n
      (pow_dvd_pow 256 (Nat.le_succ w))]

/-- On values that fit, fixed-width big-endian encoding is monotone with
respect to lexicographic order. -/
theorem lexLe_beBytes (w : Nat) : ∀ x y : Nat, x < 256 ^ w → y < 256 ^ w →
    lexLe (beBytes w x) (beBytes w y) = decide (x ≤ y) := by
  induction w with
  | zero =>
    intro x y hx hy
    interval_cases x
    interval_cases y
    rfl
  | succ w ih =>
    intro x y hx hy
    have hxm : x % 256 ^ (w + 1) = x := Nat.mod_eq_of_lt hx
    have hym : y % 256 ^ (w + 1) = y := Nat.mod_eq_of_lt hy
    have hxr : x % 256 ^ w < 256 ^ w :=
      Nat.mod_lt x (pow_pos (by norm_num) w)
    have hyr : y % 256 ^ w < 256 ^ w :=
      Nat.mod_lt y (pow_pos (by norm_num) w)
    simp only [beBytes, hxm, hym, lexLe]
    rcases Nat.lt_or_ge (x / 256 ^ w) (y / 256 ^ w) with h | h
    · have hxy : x < y := by
        by_contra hc
        exact absurd (Nat.div_le_div_right (Nat.le_of_not_lt hc)) (Nat.not_le.mpr h)
      simp [h, Nat.le_of_lt hxy]
    · rcases Nat.lt_or_ge (y / 256 ^ w) (x / 256 ^ w) with h' | h'
      · have hyx : y < x := by
          by_contra hc
          exact absurd (Nat.div_le_div_right (Nat.le_of_not_lt hc)) (Nat.not_le.mpr h')
        simp [Nat.not_lt.mpr h, h', Nat.not_le.mpr hyx]
      · have hdiv : x / 256 ^ w = y / 256 ^ w := Nat.le_antisymm h' h
        have ex : 256 ^ w * (x / 256 ^ w) + x % 256 ^ w = x := Nat.div_add_mod x _
        have ey : 256 ^ w * (y / 256 ^ w) + y % 256 ^ w = y := Nat.div_add_mod y _
        rw [hdiv] at ex
        simp only [hdiv, Nat.lt_irrefl, if_false]
        rw [ih (x % 256 ^ w) (y % 256 ^ w) hxr hyr]
        have : x % 256 ^ w ≤ y % 256 ^ w ↔ x ≤ y := by
          constructor <;> intro hle <;> omega
        exact decide_eq_decide.mpr this

/-- Encoding is injective on values that fit the width. -/
theorem beBytes_inj (w x y : Nat) (hx : x < 256 ^ w) (hy : y < 256 ^ w)
    (hne : x ≠ y) : beBytes w x ≠ beBytes w y := by
  intro heq
  rcases Nat.lt_or_ge x y with h | h
  · have := lexLe_beBytes w y x hy hx
    rw [← heq, lexLe_refl] at this
    exact absurd (of_decide_eq_true this.symm) (Nat.not_le.mpr h)
  · have h' : y < x := Nat.lt_of_le_of_ne h (fun e => hne e.symm)
    have := lexLe_beBytes w x y hx hy
    rw [heq, lexLe_refl] at this
    exact absurd (of_decide_eq_true this.symm) (Nat.not_le.mpr h')

/-- Big-endian value of a byte string. -/
def beNat (l : Bytes) : Nat := l.foldl (fun acc d => acc * 256 + d) 0

/-- Little-endian value of a byte string (Rust `get_u64_le` and friends). -/
def leNat (l : Bytes) : Nat := l.foldr (fun d acc => d + 256 * acc) 0

/-- Two's-complement big-endian bytes of an `i64` (Rust `i64::to_be_bytes`). -/
def i64be (x : Int) : Bytes := beBytes 8 (x % (2 ^ 64 : Int)).toNat

theorem i64be_of_nonneg (x : Int) (h0 : 0 ≤ x) (h1 : x < 2 ^ 63) :
    i64be x = beBytes 8 x.toNat := by
  unfold i64be
  congr 1
  rw [Int.emod_eq_of_lt h0 (by omega)]

/-!
## Authorization wrapper (`cashweb-auth-wrapper`)

Embeds `AuthWrapper::parse` and `ParsedAuthWrapper::verify` from
`src/lib/cashweb-auth-wrapper/src/lib.rs`; the draft crate
`src/cashweb-auth-wrapper/src/lib.rs` has an identical `parse` (modulo the
field being named `serialized_payload`) but an inverted scheme test in
`verify`, embedded separately as `verifyDraft`.

The secp256k1 public-key/signature decoders, the ECDSA verifier and SHA-256
are external libraries; they appear as parameters `pkFromSlice`,
`sigFromCompact`, `ecdsaVerify` and `sha256`.
-/

/-- Modelled from the spec: the protobuf-generated `SignatureScheme` enum is
not under `src/`; §3 of the spec fixes `{ECDSA = 1, Schnorr = 2}`. -/
inductive SignatureScheme where
  | ecdsa
  | schnorr
  deriving DecidableEq, Repr

/-- Modelled from the spec: `SignatureScheme::from_i32` on the generated
enum; values other than 1 and 2 are unknown and yield `none`. -/
def SignatureScheme.fromI32 (n : Int) : Option SignatureScheme :=
  if n = 1 then some .ecdsa
  else if n = 2 then some .schnorr
  else none

/-- The wire-level `AuthWrapper` message (relevant fields). -/
structure AuthWrapper where
  publicKey : Bytes
  signature : Bytes
  scheme : Int
  payload : Bytes
  payloadDigest : Bytes
  deriving DecidableEq, Repr

/-- `ParsedAuthWrapper`, generic over the secp256k1 key and signature types. -/
structure ParsedAuthWrapper (PK Sig : Type) where
  publicKey : PK
  signature : Sig
  scheme : SignatureScheme
  payload : Bytes
  payloadDigest : Bytes
  deriving DecidableEq, Repr

/-- `ParseError` from `cashweb-auth-wrapper`. -/
inductive ParseError where
  | publicKey
  | signature
  | unsupportedScheme
  | fraudulentDigest
  | digestAndPayloadMissing
  | unexpectedLengthDigest
  deriving DecidableEq, Repr

/-- `AuthWrapper::parse` (`src/lib/cashweb-auth-wrapper/src/lib.rs:67-106`). -/
def AuthWrapper.parse {PK Sig : Type}
    (pkFromSlice : Bytes → Option PK) (sigFromCompact : Bytes → Option Sig)
    (sha256 : Bytes → Bytes) (w : AuthWrapper) :
    Except ParseError (ParsedAuthWrapper PK Sig) :=
  match pkFromSlice w.publicKey with
  | none => .error .publicKey
  | some pk =>
    match SignatureScheme.fromI32 w.scheme with
    | none => .error .unsupportedScheme
    | some scheme =>
      match sigFromCompact w.signature with
      | none => .error .signature
      | some signature =>
        match w.payloadDigest.length with
        | 0 =>
          if w.payload.isEmpty then .error .digestAndPayloadMissing
          else .ok ⟨pk, signature, scheme, w.payload, sha256 w.payload⟩
        | 32 =>
          if sha256 w.payload ≠ w.payloadDigest then .error .fraudulentDigest
          else .ok ⟨pk, signature, scheme, w.payload, w.payloadDigest⟩
        | _ => .error .unexpectedLengthDigest

/-- `VerifyError` from `cashweb-auth-wrapper` (the canonical crate). -/
inductive VerifyError where
  | invalidSignature
  | unsupportedScheme
  deriving DecidableEq, Repr

/-- `ParsedAuthWrapper::verify` (`src/lib/cashweb-auth-wrapper/src/lib.rs:123-134`):
reject Schnorr, otherwise verify an ECDSA signature over the 32-byte
`payload_digest`. -/
def ParsedAuthWrapper.verify {PK Sig : Type}
    (ecdsaVerify : PK → Sig → Bytes → Bool) (w : ParsedAuthWrapper PK Sig) :
    Except VerifyError Unit :=
  if w.scheme = .schnorr then .error .unsupportedScheme
  else if ecdsaVerify w.publicKey w.signature w.payloadDigest then .ok ()
  else .error .invalidSignature

/-- `ParsedAuthWrapper::verify` of the draft crate
(`src/cashweb-auth-wrapper/src/lib.rs:112-124`): the scheme test reads
`if self.scheme != SignatureScheme::Schnorr { return UnsupportedScheme }`,
so every non-Schnorr wrapper is rejected and a Schnorr wrapper falls through
to the ECDSA verifier. -/
def ParsedAuthWrapper.verifyDraft {PK Sig : Type}
    (ecdsaVerify : PK → Sig → Bytes → Bool) (w : ParsedAuthWrapper PK Sig) :
    Except VerifyError Unit :=
  if w.scheme ≠ .schnorr then .error .unsupportedScheme
  else if ecdsaVerify w.publicKey w.signature w.payloadDigest then .ok ()
  else .error .invalidSignature

/-- In the canonical crate, `verify` rejects with `UnsupportedScheme` exactly
on Schnorr, and on ECDSA succeeds exactly when the ECDSA check passes. -/
theorem verify_canonical_scheme_cases {PK Sig : Type}
    (ecdsaVerify : PK → Sig → Bytes → Bool) (w : ParsedAuthWrapper PK Sig) :
    (w.verify ecdsaVerify = .error .unsupportedScheme ↔ w.scheme = .schnorr) ∧
      (w.scheme = .ecdsa →
        (w.verify ecdsaVerify = .ok () ↔
          ecdsaVerify w.publicKey w.signature w.payloadDigest = true)) := by
  constructor
  · constructor
    · intro h
      by_contra hs
      rw [ParsedAuthWrapper.verify, if_neg hs] at h
      by_cases hv : ecdsaVerify w.publicKey w.signature w.payloadDigest
      · simp [hv] at h
      · simp [hv] at h
    · intro hs
      simp [ParsedAuthWrapper.verify, hs]
  · intro hs
    have hns : w.scheme ≠ .schnorr := by rw [hs]; intro h; cases h
    rw [ParsedAuthWrapper.verify, if_neg hns]
    by_cases hv : ecdsaVerify w.publicKey w.signature w.payloadDigest
    · simp [hv]
    · simp [hv]

/-- C2: the claim states `verify` returns `UnsupportedScheme` iff the scheme
is Schnorr, and performs ECDSA verification when the scheme is ECDSA.  The
draft crate `src/cashweb-auth-wrapper` contradicts this: its scheme test is
inverted, so an ECDSA wrapper (here with a verifier that accepts every
signature, i.e. the signature is valid) is rejected with
`UnsupportedScheme` instead of verifying. -/
theorem c2_draft_verify_rejects_ecdsa :
    ParsedAuthWrapper.verifyDraft (fun _ _ _ => true)
      (⟨(), (), .ecdsa, [], List.replicate 32 0⟩ :
        ParsedAuthWrapper Unit Unit) =
      .error .unsupportedScheme := by
  rfl

/-- C3: with the public key, scheme and signature decoding successfully,
`parse` resolves `payload_digest` by exact case analysis on its length:
empty digest with empty payload errors `DigestAndPayloadMissing`; empty
digest with non-empty payload succeeds with the digest computed as
`SHA256(payload)`; a 32-byte digest succeeds iff it equals
`SHA256(payload)` and otherwise errors `FraudulentDigest`; any other length
errors `UnexpectedLengthDigest`. -/
theorem c3_parse_digest_cases {PK Sig : Type}
    (pkFromSlice : Bytes → Option PK) (sigFromCompact : Bytes → Option Sig)
    (sha256 : Bytes → Bytes) (w : AuthWrapper) (pk : PK) (sg : Sig)
    (s : SignatureScheme)
    (hpk : pkFromSlice w.publicKey = some pk)
    (hs : SignatureScheme.fromI32 w.scheme = some s)
    (hsg : sigFromCompact w.signature = some sg) :
    (w.payloadDigest = [] → w.payload = [] →
      w.parse pkFromSlice sigFromCompact sha256 =
        .error .digestAndPayloadMissing) ∧
    (w.payloadDigest = [] → w.payload ≠ [] →
      w.parse pkFromSlice sigFromCompact sha256 =
        .ok ⟨pk, sg, s, w.payload, sha256 w.payload⟩) ∧
    (w.payloadDigest.length = 32 →
      ((∃ p, w.parse pkFromSlice sigFromCompact sha256 = .ok p) ↔
        w.payloadDigest = sha256 w.payload) ∧
      (w.payloadDigest ≠ sha256 w.payload →
        w.parse pkFromSlice sigFromCompact sha256 =
          .error .fraudulentDigest)) ∧
    (w.payloadDigest.length ≠ 0 → w.payloadDigest.length ≠ 32 →
      w.parse pkFromSlice sigFromCompact sha256 =
        .error .unexpectedLengthDigest) := by
  refine ⟨?_, ?_, ?_, ?_⟩
  · intro hd hp
    simp [AuthWrapper.parse, hpk, hs, hsg, hd, hp]
  · intro hd hp
    simp [AuthWrapper.parse, hpk, hs, hsg, hd, List.isEmpty_iff, hp]
  · intro hd
    rw [AuthWrapper.parse, hpk, hs, hsg, hd]
    constructor
    · constructor
      · rintro ⟨p, hp⟩
        by_cases he : sha256 w.payload = w.payloadDigest
        · exact he.symm
        · simp [he] at hp
      · intro he
        refine ⟨⟨pk, sg, s, w.payload, w.payloadDigest⟩, ?_⟩
        simp [he]
    · intro hne
      have : sha256 w.payload ≠ w.payloadDigest := fun h => hne h.symm
      simp [this]
  · intro h0 h32
    rw [AuthWrapper.parse, hpk, hs, hsg]
    rcases hlen : w.payloadDigest.length with _ | n
    · exact absurd hlen h0
    · rcases n with _ | _ | _ | _ | _ | _ | _ | _ | _ | _ | _ | _ | _ | _ | _ |
        _ | _ | _ | _ | _ | _ | _ | _ | _ | _ | _ | _ | _ | _ | _ | _ | m
      all_goals first
        | rfl
        | (rcases m with _ | m
           · exact absurd hlen h32
           · rfl)

/-- Witness for `c3_parse_digest_cases` at a concrete wrapper: 32-byte digest
equal to the (mock) hash of the payload. -/
theorem c3_parse_digest_cases_witness :
    ((fun (_ : Bytes) => some ()) (AuthWrapper.publicKey
        ⟨[2], [3], 1, [7], List.replicate 32 9⟩) = some () ∧
      SignatureScheme.fromI32 (AuthWrapper.scheme
        ⟨[2], [3], 1, [7], List.replicate 32 9⟩) = some .ecdsa ∧
      (fun (_ : Bytes) => some ()) (AuthWrapper.signature
        ⟨[2], [3], 1, [7], List.replicate 32 9⟩) = some ()) ∧
    ((AuthWrapper.payloadDigest ⟨[2], [3], 1, [7], List.replicate 32 9⟩ = [] →
      AuthWrapper.payload ⟨[2], [3], 1, [7], List.replicate 32 9⟩ = [] →
      AuthWrapper.parse (fun _ => some ()) (fun _ => some ())
        (fun _ => List.replicate 32 9)
        ⟨[2], [3], 1, [7], List.replicate 32 9⟩ =
        .error .digestAndPayloadMissing) ∧
    (AuthWrapper.payloadDigest ⟨[2], [3], 1, [7], List.replicate 32 9⟩ = [] →
      AuthWrapper.payload ⟨[2], [3], 1, [7], List.replicate 32 9⟩ ≠ [] →
      AuthWrapper.parse (fun _ => some ()) (fun _ => some ())
        (fun _ => List.replicate 32 9)
        ⟨[2], [3], 1, [7], List.replicate 32 9⟩ =
        .ok ⟨(), (), .ecdsa, [7], List.replicate 32 9⟩) ∧
    ((AuthWrapper.payloadDigest
        ⟨[2], [3], 1, [7], List.replicate 32 9⟩).length = 32 →
      ((∃ p, AuthWrapper.parse (fun _ => some ()) (fun _ => some ())
          (fun _ => List.replicate 32 9)
          ⟨[2], [3], 1, [7], List.replicate 32 9⟩ = .ok p) ↔
        AuthWrapper.payloadDigest ⟨[2], [3], 1, [7], List.replicate 32 9⟩ =
          List.replicate 32 9) ∧
      (AuthWrapper.payloadDigest ⟨[2], [3], 1, [7], List.replicate 32 9⟩ ≠
          List.replicate 32 9 →
        AuthWrapper.parse (fun _ => some ()) (fun _ => some ())
          (fun _ => List.replicate 32 9)
          ⟨[2], [3], 1, [7], List.replicate 32 9⟩ =
          .error .fraudulentDigest)) ∧
    ((AuthWrapper.payloadDigest
        ⟨[2], [3], 1, [7], List.replicate 32 9⟩).length ≠ 0 →
      (AuthWrapper.payloadDigest
        ⟨[2], [3], 1, [7], List.replicate 32 9⟩).length ≠ 32 →
      AuthWrapper.parse (fun _ => some ()) (fun _ => some ())
        (fun _ => List.replicate 32 9)
        ⟨[2], [3], 1, [7], List.replicate 32 9⟩ =
        .error .unexpectedLengthDigest)) :=
  ⟨⟨by decide, by decide, by decide⟩,
    c3_parse_digest_cases (fun _ => some ()) (fun _ => some ())
      (fun _ => List.replicate 32 9) ⟨[2], [3], 1, [7], List.replicate 32 9⟩
      () () .ecdsa (by decide) (by decide) (by decide)⟩

/-!
## Key-value store substrate

RocksDB is modelled as an association list of `(key, value)` pairs with at
most one live entry per key: `put` overwrites, `delete` removes, `get`
returns the live entry.  Range scans appear later and are modelled as
filters over the entry set, which matches an ascending iterator whose
`take_while` predicate is downward-closed along the sorted key order.
-/

/-- Live value under a key (first matching entry). -/
def kvGet {α : Type} : List (Bytes × α) → Bytes → Option α
  | [], _ => none
  | (k', v) :: rest, k => if k' = k then some v else kvGet rest k

/-- Keep exactly the entries whose key satisfies `keep`. -/
def kvFilterKeys {α : Type} (db : List (Bytes × α)) (keep : Bytes → Bool) :
    List (Bytes × α) :=
  db.filter (fun kv => keep kv.1)

/-- Delete a key (`DB::delete`). -/
def kvDel {α : Type} (db : List (Bytes × α)) (k : Bytes) : List (Bytes × α) :=
  kvFilterKeys db (fun k' => k' ≠ k)

/-- Overwriting insert (`DB::put`). -/
def kvPut {α : Type} (db : List (Bytes × α)) (k : Bytes) (v : α) :
    List (Bytes × α) :=
  (k, v) :: kvDel db k

theorem kvGet_filterKeys_keep {α : Type} (db : List (Bytes × α))
    (keep : Bytes → Bool) (k : Bytes) (h : keep k = true) :
    kvGet (kvFilterKeys db keep) k = kvGet db k := by
  induction db with
  | nil => rfl
  | cons kv rest ih =>
    obtain ⟨k1, v⟩ := kv
    by_cases hk : k1 = k
    · subst hk
      simp [kvFilterKeys, List.filter_cons, h, kvGet]
    · by_cases hkeep : keep k1 = true
      · simpa [kvFilterKeys, List.filter_cons, hkeep, kvGet, hk] using ih
      · simpa [kvFilterKeys, List.filter_cons, hkeep, kvGet, hk] using ih

theorem kvGet_filterKeys_drop {α : Type} (db : List (Bytes × α))
    (keep : Bytes → Bool) (k : Bytes) (h : keep k = false) :
    kvGet (kvFilterKeys db keep) k = none := by
  induction db with
  | nil => rfl
  | cons kv rest ih =>
    obtain ⟨k1, v⟩ := kv
    by_cases hk : k1 = k
    · subst hk
      simpa [kvFilterKeys, List.filter_cons, h] using ih
    · by_cases hkeep : keep k1 = true
      · simpa [kvFilterKeys, List.filter_cons, hkeep, kvGet, hk] using ih
      · simpa [kvFilterKeys, List.filter_cons, hkeep, kvGet, hk] using ih

theorem kvGet_del_same {α : Type} (db : List (Bytes × α)) (k : Bytes) :
    kvGet (kvDel db k) k = none :=
  kvGet_filterKeys_drop db _ k (by simp)

theorem kvGet_del_other {α : Type} (db : List (Bytes × α)) (k k' : Bytes)
    (h : k' ≠ k) : kvGet (kvDel db k) k' = kvGet db k' :=
  kvGet_filterKeys_keep db _ k' (by simp [h])

theorem kvGet_put_same {α : Type} (db : List (Bytes × α)) (k : Bytes) (v : α) :
    kvGet (kvPut db k v) k = some v := by
  simp [kvPut, kvGet]

theorem kvGet_put_other {α : Type} (db : List (Bytes × α)) (k k' : Bytes)
    (v : α) (h : k' ≠ k) : kvGet (kvPut db k v) k' = kvGet db k' := by
  simp only [kvPut, kvGet, if_neg (Ne.symm h)]
  exact kvGet_del_other db k k' h

/-!
## Relay message store (`src/src/db.rs`)

Key layout: message rows `addr ++ [b'm'] ++ timestamp_be ++ digest[..4]`,
digest-index rows `addr ++ [b'd'] ++ digest` holding the 8 timestamp bytes.
`b'm' = 109`, `b'd' = 100`, `NAMESPACE_LEN = 21`, `DIGEST_LEN = 4`.

The source slices `digest[..4]` and `key[..21]` (panicking on shorter
inputs); the model uses `take`, which agrees whenever the inputs have the
lengths this module itself produces (20-byte addresses, 32-byte digests).
-/

/-- `msg_key` (`src/src/db.rs:21-30`). -/
def msgKey (pubkeyHash : Bytes) (timestamp : Nat) (digest : Bytes) : Bytes :=
  pubkeyHash ++ [109] ++ beBytes 8 timestamp ++ digest.take 4

/-- `msg_prefix` (`src/src/db.rs:32-35`): the scan bound for a timestamp. -/
def msgPre (pubkeyHash : Bytes) (timestamp : Nat) : Bytes :=
  pubkeyHash ++ [109] ++ beBytes 8 timestamp

/-- Digest-index key `addr ++ [b'd'] ++ digest`. -/
def digestKey (pubkeyHash digest : Bytes) : Bytes :=
  pubkeyHash ++ [100] ++ digest

/-- The relay database: one RocksDB keyspace of raw byte values. -/
structure Database where
  kv : List (Bytes × Bytes)
  deriving Repr

/-- `Database::push_message` (`src/src/db.rs:84-108`): write the message row,
then the digest-index row holding the big-endian timestamp. -/
def Database.pushMessage (db : Database) (pubkeyHash : Bytes)
    (timestamp : Nat) (rawMessage digest : Bytes) : Database :=
  let db1 := kvPut db.kv (msgKey pubkeyHash timestamp digest) rawMessage
  ⟨kvPut db1 (digestKey pubkeyHash digest) (beBytes 8 timestamp)⟩

/-- `Database::get_msg_key_by_digest` (`src/src/db.rs:51-68`): read the
digest row and reassemble the message key from the stored timestamp. -/
def Database.getMsgKeyByDigest (db : Database) (pubkeyHash digest : Bytes) :
    Option Bytes :=
  (kvGet db.kv (digestKey pubkeyHash digest)).map (fun ts =>
    pubkeyHash ++ [109] ++ ts ++ digest.take 4)

/-- `Database::remove_message_by_digest` (`src/src/db.rs:70-82`): resolve the
message key via the digest index and delete it.  Note the digest-index row
itself is not deleted. -/
def Database.removeMessageByDigest (db : Database)
    (pubkeyHash digest : Bytes) : Option Unit × Database :=
  match db.getMsgKeyByDigest pubkeyHash digest with
  | some k => (some (), ⟨kvDel db.kv k⟩)
  | none => (none, db)

/-- `Database::get_message_by_key` (`src/src/db.rs:121-123`). -/
def Database.getMessageByKey (db : Database) (key : Bytes) : Option Bytes :=
  kvGet db.kv key

/-- `Database::get_message_by_digest` (`src/src/db.rs:110-119`). -/
def Database.getMessageByDigest (db : Database) (pubkeyHash digest : Bytes) :
    Option Bytes :=
  match db.getMsgKeyByDigest pubkeyHash digest with
  | some k => db.getMessageByKey k
  | none => none

/-- `Database::remove_messages_range` (`src/src/db.rs:170-205`): delete every
key that is `≥ start_prefix`, shares its 21-byte namespace, and (when an end
prefix is given) whose suffix past the namespace is `<` the end prefix's
suffix.  The ascending iterator with its downward-closed `take_while` visits
exactly those keys; the per-key deletes are one filter. -/
def Database.removeMessagesRange (db : Database) (startPre : Bytes)
    (endPre : Option Bytes) : Database :=
  match endPre with
  | some e =>
    ⟨kvFilterKeys db.kv (fun k =>
      ¬(lexLe startPre k ∧ k.take 21 = startPre.take 21 ∧
        lexLt (k.drop 21) (e.drop 21)))⟩
  | none =>
    ⟨kvFilterKeys db.kv (fun k =>
      ¬(lexLe startPre k ∧ k.take 21 = startPre.take 21))⟩

/-- C7 counterexample: push one message, delete it by digest; the claim says
`get_msg_key_by_digest` then returns nothing, but the digest-index row was
never deleted, so the key is still resolved. -/
theorem c7_remove_by_digest_leaves_index :
    (((Database.pushMessage ⟨[]⟩ (List.replicate 20 1) 5 [7]
        (List.replicate 32 2)).removeMessageByDigest (List.replicate 20 1)
        (List.replicate 32 2)).2.getMsgKeyByDigest (List.replicate 20 1)
        (List.replicate 32 2)).isSome = true := by
  decide

theorem take21_of_len20 (pk : Bytes) (b : Nat) (rest : Bytes)
    (hpk : pk.length = 20) : (pk ++ [b] ++ rest).take 21 = pk ++ [b] := by
  rw [List.append_assoc, List.take_append_eq_append_take,
    List.take_of_length_le (by omega)]
  congr 1
  rw [hpk]
  rfl

/-- C7 (amended): `remove_message_by_digest` resolves and deletes the message
row only; the digest-index row survives, so afterwards
`get_message_by_digest` returns nothing while `get_msg_key_by_digest` still
resolves the (dangling) message key.  `remove_messages_range` over the
message namespace likewise deletes the message row and leaves the
digest-index row in place. -/
theorem c7_delete_rows (db : Database) (pk raw digest : Bytes) (t : Nat)
    (hpk : pk.length = 20) (hd : 4 ≤ digest.length) :
    (db.pushMessage pk t raw digest).removeMessageByDigest pk digest =
      (some (), ⟨kvDel (db.pushMessage pk t raw digest).kv
        (msgKey pk t digest)⟩) ∧
    (((db.pushMessage pk t raw digest).removeMessageByDigest pk
        digest).2.getMessageByDigest pk digest = none ∧
      ((db.pushMessage pk t raw digest).removeMessageByDigest pk
        digest).2.getMsgKeyByDigest pk digest =
        some (msgKey pk t digest)) ∧
    (((db.pushMessage pk t raw digest).removeMessagesRange (msgPre pk t)
        none).getMessageByKey (msgKey pk t digest) = none ∧
      ((db.pushMessage pk t raw digest).removeMessagesRange (msgPre pk t)
        none).getMsgKeyByDigest pk digest = some (msgKey pk t digest)) := by
  have hne : digestKey pk digest ≠ msgKey pk t digest := by
    intro h
    rw [digestKey, msgKey] at h
    simp only [List.append_assoc] at h
    rw [List.append_right_inj] at h
    simp at h
  have hdig : kvGet (db.pushMessage pk t raw digest).kv
      (digestKey pk digest) = some (beBytes 8 t) := by
    rw [Database.pushMessage]
    exact kvGet_put_same _ _ _
  have hkey : (db.pushMessage pk t raw digest).getMsgKeyByDigest pk digest =
      some (msgKey pk t digest) := by
    rw [Database.getMsgKeyByDigest, hdig]
    rfl
  have hrem : (db.pushMessage pk t raw digest).removeMessageByDigest pk
      digest = (some (), ⟨kvDel (db.pushMessage pk t raw digest).kv
        (msgKey pk t digest)⟩) := by
    rw [Database.removeMessageByDigest, hkey]
  have htake_msg : (msgKey pk t digest).take 21 = pk ++ [109] := by
    rw [msgKey, List.append_assoc]
    exact take21_of_len20 pk 109 _ hpk
  have htake_start : (msgPre pk t).take 21 = pk ++ [109] := by
    rw [msgPre]
    exact take21_of_len20 pk 109 _ hpk
  have htake_dig : (digestKey pk digest).take 21 = pk ++ [100] :=
    take21_of_len20 pk 100 _ hpk
  have hlex : lexLe (msgPre pk t) (msgKey pk t digest) = true := by
    rw [msgPre, msgKey]
    exact lexLe_append_right _ _
  refine ⟨hrem, ⟨?_, ?_⟩, ?_, ?_⟩
  · rw [hrem]
    rw [Database.getMessageByDigest, Database.getMsgKeyByDigest]
    rw [show (⟨kvDel (db.pushMessage pk t raw digest).kv
        (msgKey pk t digest)⟩ : Database).kv =
      kvDel (db.pushMessage pk t raw digest).kv (msgKey pk t digest) from rfl]
    rw [kvGet_del_other _ _ _ hne, hdig]
    simp only [Option.map_some']
    rw [show pk ++ [109] ++ beBytes 8 t ++ digest.take 4 =
      msgKey pk t digest from rfl]
    rw [Database.getMessageByKey]
    exact kvGet_del_same _ _
  · rw [hrem]
    rw [Database.getMsgKeyByDigest]
    rw [show (⟨kvDel (db.pushMessage pk t raw digest).kv
        (msgKey pk t digest)⟩ : Database).kv =
      kvDel (db.pushMessage pk t raw digest).kv (msgKey pk t digest) from rfl]
    rw [kvGet_del_other _ _ _ hne, hdig]
    rfl
  · have hkeep1 : (decide ¬(lexLe (msgPre pk t) (msgKey pk t digest) = true ∧
        List.take 21 (msgKey pk t digest) = List.take 21 (msgPre pk t))) =
        false := by
      rw [decide_eq_false_iff_not]
      simp [hlex, htake_msg, htake_start]
    rw [Database.removeMessagesRange, Database.getMessageByKey]
    exact kvGet_filterKeys_drop (db.pushMessage pk t raw digest).kv
      (fun k => decide ¬(lexLe (msgPre pk t) k = true ∧
        List.take 21 k = List.take 21 (msgPre pk t)))
      (msgKey pk t digest) hkeep1
  · rw [Database.removeMessagesRange, Database.getMsgKeyByDigest]
    rw [kvGet_filterKeys_keep _ _ _ (by
      simp only [htake_dig, htake_start, decide_eq_true_eq]
      intro h
      rw [List.append_right_inj] at h
      exact absurd h.2 (by simp))]
    rw [hdig]
    rfl

/-- Witness for `c7_delete_rows` at a concrete store. -/
theorem c7_delete_rows_witness :
    ((List.replicate 20 1 : Bytes).length = 20 ∧
      4 ≤ (List.replicate 32 2 : Bytes).length) ∧
    ((Database.pushMessage ⟨[]⟩ (List.replicate 20 1) 5 [7]
        (List.replicate 32 2)).removeMessageByDigest (List.replicate 20 1)
        (List.replicate 32 2) =
      (some (), ⟨kvDel (Database.pushMessage ⟨[]⟩ (List.replicate 20 1) 5 [7]
        (List.replicate 32 2)).kv
        (msgKey (List.replicate 20 1) 5 (List.replicate 32 2))⟩) ∧
    (((Database.pushMessage ⟨[]⟩ (List.replicate 20 1) 5 [7]
        (List.replicate 32 2)).removeMessageByDigest (List.replicate 20 1)
        (List.replicate 32 2)).2.getMessageByDigest (List.replicate 20 1)
        (List.replicate 32 2) = none ∧
      ((Database.pushMessage ⟨[]⟩ (List.replicate 20 1) 5 [7]
        (List.replicate 32 2)).removeMessageByDigest (List.replicate 20 1)
        (List.replicate 32 2)).2.getMsgKeyByDigest (List.replicate 20 1)
        (List.replicate 32 2) =
        some (msgKey (List.replicate 20 1) 5 (List.replicate 32 2))) ∧
    (((Database.pushMessage ⟨[]⟩ (List.replicate 20 1) 5 [7]
        (List.replicate 32 2)).removeMessagesRange
        (msgPre (List.replicate 20 1) 5) none).getMessageByKey
        (msgKey (List.replicate 20 1) 5 (List.replicate 32 2)) = none ∧
      ((Database.pushMessage ⟨[]⟩ (List.replicate 20 1) 5 [7]
        (List.replicate 32 2)).removeMessagesRange
        (msgPre (List.replicate 20 1) 5) none).getMsgKeyByDigest
        (List.replicate 20 1) (List.replicate 32 2) =
        some (msgKey (List.replicate 20 1) 5 (List.replicate 32 2)))) :=
  ⟨⟨by decide, by decide⟩,
    c7_delete_rows ⟨[]⟩ (List.replicate 20 1) [7] (List.replicate 32 2) 5
      (by decide) (by decide)⟩

/-!
## Keyserver pub/sub store (`src/keyserver/src/pubsub/db.rs`)

Two column families: `payloads` maps a payload digest to the stored wrapper
(protobuf encode/decode round-trips, so the model stores the structure);
`messages` maps `SHA256(topic_prefix) ++ timestamp_be ++ payload_digest` to
the payload digest.  SHA-256 of a topic string is the parameter `sha`.
-/

/-- `BurnOutputs` from the generated `auth_wrapper` protobuf: a raw burn
transaction and the index of its commitment output. -/
structure BurnOutputs where
  tx : Bytes
  index : Nat
  deriving DecidableEq, Repr

/-- Modelled from the spec: the generated keyserver `AuthWrapper` message
(`cashweb::auth_wrapper`) is not under `src/`; this carries the fields the
pub/sub store and handlers use (§3: payload, digest, burn outputs and the
signed burn total). -/
structure AuthWrapperKS where
  payload : Bytes
  payloadDigest : Bytes
  transactions : List BurnOutputs
  burnAmount : Int
  deriving DecidableEq, Repr

/-- `PubSubDatabaseError` (`src/keyserver/src/pubsub/db.rs:16-32`), omitting
the storage/codec error cases that cannot arise in the pure model. -/
inductive PubSubDatabaseError where
  | missingValue
  | topicTooLong (n : Nat)
  | topicInvalidCharacters
  | topicInvalidSegments
  deriving DecidableEq, Repr

/-- The pub/sub database: `messages` and `payloads` column families. -/
structure PubSubDB where
  messagesCF : List (Bytes × Bytes)
  payloadsCF : List (Bytes × AuthWrapperKS)
  deriving Repr

/-- Rust `str::split('.')` collected to a vector, over the character list of
the topic: the empty string yields one empty segment, and every separator
starts a new segment. -/
def splitSegs : List Char → List (List Char)
  | [] => [[]]
  | c :: rest =>
    match splitSegs rest with
    | [] => [[]]
    | s :: ss => if c = '.' then [] :: s :: ss else (c :: s) :: ss

/-- Rust `[&str]::join(".")`. -/
def joinSegs : List (List Char) → List Char
  | [] => []
  | [s] => s
  | s :: ss => s ++ '.' :: joinSegs ss

/-- `PubSubDatabase::put_message` (`src/keyserver/src/pubsub/db.rs:45-80`):
validate the topic (more than 10 dot-separated segments or an empty segment
are rejected — nothing else), write the payload row, then one index row per
dot-separated prefix of the topic, including the empty prefix.  Topics are
character lists; `sha` hashes a topic string. -/
def PubSubDB.putMessage (sha : List Char → Bytes) (db : PubSubDB)
    (timestamp : Nat) (topic : List Char) (message : AuthWrapperKS) :
    Except PubSubDatabaseError PubSubDB :=
  if (splitSegs topic).length > 10 then
    .error (.topicTooLong (splitSegs topic).length)
  else if (splitSegs topic).any (fun s => decide (s.length = 0)) then
    .error .topicInvalidSegments
  else
    .ok ⟨((List.range ((splitSegs topic).length + 1)).map (fun idx =>
        sha (joinSegs ((splitSegs topic).take idx)) ++
          beBytes 8 timestamp ++ message.payloadDigest)).foldl
        (fun cf k => kvPut cf k message.payloadDigest) db.messagesCF,
      kvPut db.payloadsCF message.payloadDigest message⟩

/-- `PubSubDatabase::update_message` (`src/keyserver/src/pubsub/db.rs:84-90`):
replace the payload row only; index rows already point at this digest. -/
def PubSubDB.updateMessage (db : PubSubDB) (message : AuthWrapperKS) :
    PubSubDB :=
  ⟨db.messagesCF, kvPut db.payloadsCF message.payloadDigest message⟩

/-- `PubSubDatabase::get_message` (`src/keyserver/src/pubsub/db.rs:132-144`). -/
def PubSubDB.getMessage (db : PubSubDB) (payloadDigest : Bytes) :
    Except PubSubDatabaseError AuthWrapperKS :=
  match kvGet db.payloadsCF payloadDigest with
  | some w => .ok w
  | none => .error .missingValue

/-- The ascending iterator from `start_prefix` with
`take_while (key ≤ end_prefix)` visits exactly the entries whose key lies in
the closed lexicographic interval; the predicate is downward-closed along
the sorted order, so the visited set is a filter. -/
def scanRange (cf : List (Bytes × Bytes)) (startB endB : Bytes) :
    List (Bytes × Bytes) :=
  cf.filter (fun kv => lexLe startB kv.1 && lexLe kv.1 endB)

/-- Dereference each scanned digest through the `payloads` column family;
the source calls `.unwrap()` on each `get_message`, so a missing payload row
is a panic (`none`). -/
def derefAll (payloads : List (Bytes × AuthWrapperKS)) :
    List (Bytes × Bytes) → Option (List AuthWrapperKS)
  | [] => some []
  | kv :: rest =>
    match kvGet payloads kv.2, derefAll payloads rest with
    | some w, some l => some (w :: l)
    | _, _ => none

/-- `PubSubDatabase::get_messages_to` (`src/keyserver/src/pubsub/db.rs:93-120`):
reject topics containing whitespace (the only validation here), then scan
`messages` from `SHA256(topic) ++ from_be` while the key is
`≤ SHA256(topic) ++ to_be`, dereferencing each digest.  `from`/`to` are
`i64` encoded big-endian two's complement.  `none` models a panic. -/
def PubSubDB.getMessagesTo (sha : List Char → Bytes) (db : PubSubDB)
    (topic : List Char) (fromT toT : Int) :
    Option (Except PubSubDatabaseError (List AuthWrapperKS)) :=
  if topic.any (fun c => c.isWhitespace) then
    some (.error .topicInvalidCharacters)
  else
    (derefAll db.payloadsCF (scanRange db.messagesCF
      (sha topic ++ i64be fromT) (sha topic ++ i64be toT))).map .ok

/-- The dot-separated prefixes of a topic, shortest first, starting with the
empty prefix — exactly the index rows `put_message` writes. -/
def topicPrefixes (t : List Char) : List (List Char) :=
  (List.range ((splitSegs t).length + 1)).map (fun i =>
    joinSegs ((splitSegs t).take i))

/-- C6 counterexample: the claim says the store's validation rejects topics
with whitespace or uppercase characters and that `put_message` applies it;
but `put_message` only checks segment count and emptiness, so it accepts
the topic `"FOO BAR"` containing uppercase letters and a space. -/
theorem c6_put_accepts_uppercase_whitespace :
    (PubSubDB.putMessage (fun _ => List.replicate 32 0) ⟨[], []⟩ 1
      ['F', 'O', 'O', ' ', 'B', 'A', 'R'] ⟨[], [5], [], 0⟩).toOption.isSome =
      true := by
  rfl

/-- C6 (amended): `put_message` succeeds exactly when the topic has at most
10 dot-separated segments, all non-empty — it performs no character-class
check; `get_messages_to` rejects with `TopicInvalidCharacters` exactly the
topics containing a whitespace character — it performs no uppercase,
charset, or segment check. -/
theorem c6_validation_split (sha : List Char → Bytes) (db : PubSubDB)
    (ts : Nat) (topic : List Char) (m : AuthWrapperKS) (fromT toT : Int) :
    ((∃ db', PubSubDB.putMessage sha db ts topic m = .ok db') ↔
      ((splitSegs topic).length ≤ 10 ∧
        ∀ s ∈ splitSegs topic, s ≠ [])) ∧
    (PubSubDB.getMessagesTo sha db topic fromT toT =
        some (.error .topicInvalidCharacters) ↔
      ∃ c ∈ topic, c.isWhitespace) := by
  constructor
  · rw [PubSubDB.putMessage]
    by_cases h10 : (splitSegs topic).length > 10
    · rw [if_pos h10]
      constructor
      · rintro ⟨db', h⟩
        exact Except.noConfusion h
      · intro h
        exact absurd h.1 (by omega)
    · rw [if_neg h10]
      by_cases hseg :
          (splitSegs topic).any (fun s => decide (s.length = 0)) = true
      · rw [if_pos hseg]
        rw [List.any_eq_true] at hseg
        obtain ⟨s, hs, hs0⟩ := hseg
        constructor
        · rintro ⟨db', h⟩
          exact Except.noConfusion h
        · rintro ⟨_, hall⟩
          have hs' : s.length = 0 := of_decide_eq_true hs0
          exact absurd (List.length_eq_zero.mp hs') (hall s hs)
      · rw [if_neg hseg]
        constructor
        · intro _
          refine ⟨by omega, fun s hs hempty => ?_⟩
          apply hseg
          rw [List.any_eq_true]
          exact ⟨s, hs, decide_eq_true (by rw [hempty]; rfl)⟩
        · intro _
          exact ⟨_, rfl⟩
  · rw [PubSubDB.getMessagesTo]
    by_cases hws : topic.any (fun c => c.isWhitespace) = true
    · rw [if_pos hws]
      rw [List.any_eq_true] at hws
      simpa using hws
    · rw [if_neg hws]
      constructor
      · intro h
        rcases hd : derefAll db.payloadsCF (scanRange db.messagesCF
            (sha topic ++ i64be fromT) (sha topic ++ i64be toT)) with _ | l
        · rw [hd] at h
          simp at h
        · rw [hd] at h
          simp only [Option.map_some', Option.some.injEq] at h
          exact Except.noConfusion h
      · intro hex
        exact absurd (List.any_eq_true.mpr hex) hws

theorem mem_kvPut_same_value {α : Type} (cf : List (Bytes × α))
    (k k' : Bytes) (v : α) (h : (k, v) ∈ cf) : (k, v) ∈ kvPut cf k' v := by
  by_cases hk : k = k'
  · subst hk
    exact List.mem_cons_self _ _
  · exact List.mem_cons_of_mem _ (List.mem_filter.mpr ⟨h, by simp [hk]⟩)

theorem mem_foldPut_of_mem {α : Type} (keys : List Bytes)
    (cf : List (Bytes × α)) (k : Bytes) (v : α) (h : (k, v) ∈ cf) :
    (k, v) ∈ keys.foldl (fun cf k' => kvPut cf k' v) cf := by
  induction keys generalizing cf with
  | nil => exact h
  | cons k₀ rest ih => exact ih _ (mem_kvPut_same_value cf k k₀ v h)

theorem mem_foldPut_self {α : Type} (keys : List Bytes)
    (cf : List (Bytes × α)) (k : Bytes) (v : α) (h : k ∈ keys) :
    (k, v) ∈ keys.foldl (fun cf k' => kvPut cf k' v) cf := by
  induction keys generalizing cf with
  | nil => cases h
  | cons k₀ rest ih =>
    rcases List.mem_cons.mp h with rfl | hrest
    · exact mem_foldPut_of_mem rest _ k v (List.mem_cons_self _ _)
    · exact ih _ hrest

theorem mem_foldPut_cases {α : Type} (keys : List Bytes)
    (cf : List (Bytes × α)) (kv : Bytes × α) (v : α)
    (h : kv ∈ keys.foldl (fun cf k' => kvPut cf k' v) cf) :
    kv ∈ cf ∨ (kv.1 ∈ keys ∧ kv.2 = v) := by
  induction keys generalizing cf with
  | nil => exact Or.inl h
  | cons k₀ rest ih =>
    rcases ih _ h with hin | ⟨hk, hv⟩
    · rcases List.mem_cons.mp hin with rfl | hdel
      · exact Or.inr ⟨List.mem_cons_self _ _, rfl⟩
      · exact Or.inl (List.mem_filter.mp hdel).1
    · exact Or.inr ⟨List.mem_cons_of_mem _ hk, hv⟩

theorem derefAll_isSome (payloads : List (Bytes × AuthWrapperKS))
    (entries : List (Bytes × Bytes))
    (h : ∀ kv ∈ entries, (kvGet payloads kv.2).isSome = true) :
    ∃ l, derefAll payloads entries = some l := by
  induction entries with
  | nil => exact ⟨[], rfl⟩
  | cons kv rest ih =>
    obtain ⟨w, hw⟩ := Option.isSome_iff_exists.mp (h kv (List.mem_cons_self _ _))
    obtain ⟨l, hl⟩ := ih (fun kv' h' => h kv' (List.mem_cons_of_mem _ h'))
    exact ⟨w :: l, by rw [derefAll, hw, hl]⟩

theorem derefAll_mem (payloads : List (Bytes × AuthWrapperKS))
    (entries : List (Bytes × Bytes)) (l : List AuthWrapperKS)
    (k₀ v₀ : Bytes) (w : AuthWrapperKS)
    (hall : derefAll payloads entries = some l)
    (hm : (k₀, v₀) ∈ entries) (hw : kvGet payloads v₀ = some w) : w ∈ l := by
  induction entries generalizing l with
  | nil => cases hm
  | cons kv rest ih =>
    rw [derefAll] at hall
    rcases hg : kvGet payloads kv.2 with _ | w₁ <;> rw [hg] at hall
    · cases hall
    · rcases hr : derefAll payloads rest with _ | l₁ <;> rw [hr] at hall
      · cases hall
      · cases hall
        rcases List.mem_cons.mp hm with rfl | hrest
        · have h12 : some w = some w₁ := hw.symm.trans hg
          cases h12
          exact List.mem_cons_self _ _
        · exact List.mem_cons_of_mem _ (ih l₁ hr hrest)

theorem lexLe_window_lower (x y : Nat) (d : Bytes) (hx : x < 256 ^ 8)
    (hy : y < 256 ^ 8) (hxy : x ≤ y) :
    lexLe (beBytes 8 x) (beBytes 8 y ++ d) = true := by
  rcases eq_or_lt_of_le hxy with rfl | hlt
  · exact lexLe_append_right _ _
  · have hne := beBytes_inj 8 x y hx hy (Nat.ne_of_lt hlt)
    have hstep := lexLe_append_of_ne (beBytes 8 x) (beBytes 8 y) [] d
      (by simp [beBytes_length]) hne
    rw [List.append_nil] at hstep
    rw [hstep, lexLe_beBytes 8 x y hx hy]
    simp [hxy]

theorem lexLe_window_upper (x y : Nat) (d : Bytes) (hx : x < 256 ^ 8)
    (hy : y < 256 ^ 8) (hxy : x < y) :
    lexLe (beBytes 8 x ++ d) (beBytes 8 y) = true := by
  have hne := beBytes_inj 8 x y hx hy (Nat.ne_of_lt hxy)
  have hstep := lexLe_append_of_ne (beBytes 8 x) (beBytes 8 y) d []
    (by simp [beBytes_length]) hne
  rw [List.append_nil] at hstep
  rw [hstep, lexLe_beBytes 8 x y hx hy]
  simp [Nat.le_of_lt hxy]

theorem putMessage_ok_eq (sha : List Char → Bytes) (db : PubSubDB) (τ : Nat)
    (t : List Char) (m : AuthWrapperKS) (db' : PubSubDB)
    (h : PubSubDB.putMessage sha db τ t m = .ok db') :
    db' = ⟨((List.range ((splitSegs t).length + 1)).map (fun idx =>
        sha (joinSegs ((splitSegs t).take idx)) ++ beBytes 8 τ ++
          m.payloadDigest)).foldl
        (fun cf k => kvPut cf k m.payloadDigest) db.messagesCF,
      kvPut db.payloadsCF m.payloadDigest m⟩ := by
  rw [PubSubDB.putMessage] at h
  split at h
  · exact Except.noConfusion h
  · split at h
    · exact Except.noConfusion h
    · exact (Except.ok.inj h).symm

/-- C5 (amended): for a valid topic `t` and a message `m` stored by
`put_message` at timestamp `τ`, `get_messages_to(p, from, to)` returns `m`
for every dot-separated prefix `p` of `t` whenever `from ≤ τ` and `to > τ`
(strictly: the scan's end bound is exclusive, because a full 72-byte index
key lexicographically exceeds the 40-byte end prefix), and never returns
`m` for a topic whose digest differs from every prefix's digest. -/
theorem c5_topic_index (sha : List Char → Bytes)
    (hlen : ∀ s, (sha s).length = 32)
    (t : List Char) (τ : Nat) (m : AuthWrapperKS) (fromT toT : Int)
    (hτ : τ < 2 ^ 63) (hfrom0 : 0 ≤ fromT) (hfrom : fromT ≤ (τ : Int))
    (hto : (τ : Int) < toT) (hto63 : toT < 2 ^ 63) :
    (∀ db db' : PubSubDB,
      (∀ kv ∈ db.messagesCF, (kvGet db.payloadsCF kv.2).isSome = true) →
      PubSubDB.putMessage sha db τ t m = .ok db' →
      ∀ p ∈ topicPrefixes t, (∀ c ∈ p, ¬c.isWhitespace) →
      ∃ l, PubSubDB.getMessagesTo sha db' p fromT toT = some (.ok l) ∧
        m ∈ l) ∧
    (∀ db' : PubSubDB,
      PubSubDB.putMessage sha (⟨[], []⟩ : PubSubDB) τ t m = .ok db' →
      ∀ p' : List Char, (∀ q ∈ topicPrefixes t, sha p' ≠ sha q) →
      ∀ l, PubSubDB.getMessagesTo sha db' p' fromT toT = some (.ok l) →
      m ∉ l) := by
  have h2 : (256 : Nat) ^ 8 = 2 ^ 64 := by norm_num
  have hfromN : fromT.toNat ≤ τ := by omega
  have hfrom64 : fromT.toNat < 256 ^ 8 := by rw [h2]; omega
  have hτ64 : τ < 256 ^ 8 := by rw [h2]; omega
  have htoN : τ < toT.toNat := by omega
  have hto64 : toT.toNat < 256 ^ 8 := by rw [h2]; omega
  have hifrom : i64be fromT = beBytes 8 fromT.toNat :=
    i64be_of_nonneg _ hfrom0 (by omega)
  have hito : i64be toT = beBytes 8 toT.toNat :=
    i64be_of_nonneg _ (by omega) hto63
  constructor
  · intro db db' hback hput p hp hpws
    rw [putMessage_ok_eq sha db τ t m db' hput]
    have hws : p.any (fun c => c.isWhitespace) = false := by
      rw [List.any_eq_false]
      intro c hc
      simpa using hpws c hc
    set keys := (List.range ((splitSegs t).length + 1)).map (fun idx =>
      sha (joinSegs ((splitSegs t).take idx)) ++ beBytes 8 τ ++
        m.payloadDigest) with hkeys
    have hkeyp : sha p ++ beBytes 8 τ ++ m.payloadDigest ∈ keys := by
      rw [topicPrefixes] at hp
      obtain ⟨i, hi, hpi⟩ := List.mem_map.mp hp
      rw [hkeys]
      exact List.mem_map.mpr ⟨i, hi, by rw [hpi]⟩
    have hmem : (sha p ++ beBytes 8 τ ++ m.payloadDigest, m.payloadDigest) ∈
        keys.foldl (fun cf k => kvPut cf k m.payloadDigest) db.messagesCF :=
      mem_foldPut_self keys db.messagesCF _ m.payloadDigest hkeyp
    have hback' : ∀ kv ∈
        keys.foldl (fun cf k => kvPut cf k m.payloadDigest) db.messagesCF,
        (kvGet (kvPut db.payloadsCF m.payloadDigest m) kv.2).isSome = true := by
      intro kv hkv
      rcases mem_foldPut_cases keys db.messagesCF kv m.payloadDigest hkv with
        hin | ⟨_, hv⟩
      · by_cases hd : kv.2 = m.payloadDigest
        · rw [hd, kvGet_put_same]
          rfl
        · rw [kvGet_put_other _ _ _ _ hd]
          exact hback kv hin
      · rw [hv, kvGet_put_same]
        rfl
    have hwin : (lexLe (sha p ++ i64be fromT)
          (sha p ++ beBytes 8 τ ++ m.payloadDigest) &&
        lexLe (sha p ++ beBytes 8 τ ++ m.payloadDigest)
          (sha p ++ i64be toT)) = true := by
      rw [Bool.and_eq_true]
      constructor
      · rw [hifrom, List.append_assoc (sha p), lexLe_append_same]
        exact lexLe_window_lower fromT.toNat τ m.payloadDigest hfrom64 hτ64
          hfromN
      · rw [hito, List.append_assoc (sha p), lexLe_append_same]
        exact lexLe_window_upper τ toT.toNat m.payloadDigest hτ64 hto64 htoN
    have hscan : (sha p ++ beBytes 8 τ ++ m.payloadDigest, m.payloadDigest) ∈
        scanRange (keys.foldl (fun cf k => kvPut cf k m.payloadDigest)
          db.messagesCF) (sha p ++ i64be fromT) (sha p ++ i64be toT) := by
      rw [scanRange]
      exact List.mem_filter.mpr ⟨hmem, hwin⟩
    obtain ⟨l, hl⟩ := derefAll_isSome (kvPut db.payloadsCF m.payloadDigest m)
      (scanRange (keys.foldl (fun cf k => kvPut cf k m.payloadDigest)
        db.messagesCF) (sha p ++ i64be fromT) (sha p ++ i64be toT))
      (fun kv hkv => hback' kv (List.mem_filter.mp hkv).1)
    refine ⟨l, ?_, ?_⟩
    · rw [PubSubDB.getMessagesTo, if_neg (by
        rw [hws]; exact Bool.false_ne_true)]
      rw [show (⟨keys.foldl (fun cf k => kvPut cf k m.payloadDigest)
          db.messagesCF, kvPut db.payloadsCF m.payloadDigest m⟩ :
            PubSubDB).messagesCF = keys.foldl
          (fun cf k => kvPut cf k m.payloadDigest) db.messagesCF from rfl]
      rw [show (⟨keys.foldl (fun cf k => kvPut cf k m.payloadDigest)
          db.messagesCF, kvPut db.payloadsCF m.payloadDigest m⟩ :
            PubSubDB).payloadsCF =
          kvPut db.payloadsCF m.payloadDigest m from rfl]
      rw [hl]
      rfl
    · exact derefAll_mem _ _ l _ m.payloadDigest m hl hscan
        (kvGet_put_same _ _ _)
  · intro db' hput p' hne l hget hml
    rw [putMessage_ok_eq sha ⟨[], []⟩ τ t m db' hput] at hget
    rcases hwsb : p'.any (fun c => c.isWhitespace) with _ | _
    · rw [PubSubDB.getMessagesTo, if_neg (by
        rw [hwsb]; exact Bool.false_ne_true)] at hget
      have hempty : scanRange
          (((List.range ((splitSegs t).length + 1)).map (fun idx =>
            sha (joinSegs ((splitSegs t).take idx)) ++ beBytes 8 τ ++
              m.payloadDigest)).foldl
            (fun cf k => kvPut cf k m.payloadDigest) [])
          (sha p' ++ i64be fromT) (sha p' ++ i64be toT) = [] := by
        rw [scanRange, List.filter_eq_nil_iff]
        intro kv hkv
        rcases mem_foldPut_cases _ [] kv m.payloadDigest hkv with hin | ⟨hk, _⟩
        · cases hin
        · obtain ⟨i, hi, hki⟩ := List.mem_map.mp hk
          have hq : joinSegs ((splitSegs t).take i) ∈ topicPrefixes t := by
            rw [topicPrefixes]
            exact List.mem_map.mpr ⟨i, hi, rfl⟩
          have hnq := hne _ hq
          intro hcontra
          rw [Bool.and_eq_true] at hcontra
          obtain ⟨hlo, hhi⟩ := hcontra
          rw [← hki] at hlo hhi
          rw [List.append_assoc] at hlo hhi
          rw [lexLe_append_of_ne _ _ _ _ (by rw [hlen, hlen]) hnq] at hlo
          rw [lexLe_append_of_ne _ _ _ _ (by rw [hlen, hlen])
            (fun hh => hnq hh.symm)] at hhi
          exact hnq (lexLe_antisymm _ _ hlo hhi)
      rw [hempty] at hget
      rw [show derefAll (kvPut [] m.payloadDigest m) [] = some [] from rfl]
        at hget
      simp only [Option.map_some', Option.some.injEq] at hget
      rw [← Except.ok.inj hget] at hml
      cases hml
    · rw [PubSubDB.getMessagesTo, if_pos (by rw [hwsb])] at hget
      simp only [Option.some.injEq] at hget
      exact Except.noConfusion hget

/-- A concrete 32-byte topic-hash stand-in used to exercise the pub/sub
model on closed inputs. -/
def c5sha (s : List Char) : Bytes := List.replicate 31 0 ++ [s.length]

/-- A concrete stored wrapper for the pub/sub scenarios. -/
def c5m : AuthWrapperKS := ⟨[1], List.replicate 32 7, [], 0⟩

/-- C5 counterexample: the claim says `get(p, from, to)` returns the message
whenever `from ≤ τ` and `to ≥ τ`.  Publish at `τ = 1` and query with
`from = 0, to = 1`: the publish succeeds, yet the query returns the empty
list, because the stored 72-byte key strictly exceeds the 40-byte end
prefix `SHA256(topic) ++ to_be`. -/
theorem c5_to_equal_tau_excluded :
    (PubSubDB.putMessage c5sha ⟨[], []⟩ 1 ['a'] c5m).toOption.map
      (fun db' => PubSubDB.getMessagesTo c5sha db' ['a'] 0 1) =
      some (some (.ok [])) := by
  set_option maxRecDepth 10000 in rfl

/-- Witness for `c5_topic_index` at the topic `"a"`, `τ = 1`, window
`[0, 2)`. -/
theorem c5_topic_index_witness :
    ((∀ s, (c5sha s).length = 32) ∧ 1 < 2 ^ 63 ∧ (0 : Int) ≤ 0 ∧
      (0 : Int) ≤ ((1 : Nat) : Int) ∧ ((1 : Nat) : Int) < 2 ∧
      (2 : Int) < 2 ^ 63) ∧
    ((∀ db db' : PubSubDB,
      (∀ kv ∈ db.messagesCF, (kvGet db.payloadsCF kv.2).isSome = true) →
      PubSubDB.putMessage c5sha db 1 ['a'] c5m = .ok db' →
      ∀ p ∈ topicPrefixes ['a'], (∀ c ∈ p, ¬c.isWhitespace) →
      ∃ l, PubSubDB.getMessagesTo c5sha db' p 0 2 = some (.ok l) ∧
        c5m ∈ l) ∧
    (∀ db' : PubSubDB,
      PubSubDB.putMessage c5sha (⟨[], []⟩ : PubSubDB) 1 ['a'] c5m = .ok db' →
      ∀ p' : List Char, (∀ q ∈ topicPrefixes ['a'], c5sha p' ≠ c5sha q) →
      ∀ l, PubSubDB.getMessagesTo c5sha db' p' 0 2 = some (.ok l) →
      c5m ∉ l)) :=
  ⟨⟨fun s => by simp [c5sha], by decide, by decide, by decide, by decide,
      by decide⟩,
    c5_topic_index c5sha (fun s => by simp [c5sha]) ['a'] 1 c5m 0 2
      (by decide) (by decide) (by decide) (by decide) (by decide)⟩

/-!
## Relay `PUT /messages/{addr}` (`src/src/net/messages.rs:261-384`)

The handler decodes a message set and, per message: derives the sender's
pubkey hash, computes the payload digest, runs stamp verification unless the
message is a self-send, overwrites `payload_digest`, and — crucially —
**empties `serialized_payload` in place when it exceeds the WebSocket
truncation threshold, before the storage loop runs**.  It then pushes the
(possibly emptied) message under both the destination and the sender, and
broadcasts to the destination channel and to every sender's channel.

SHA-256, HASH160, protobuf codecs and the stamp/broadcast pipeline
(lines 288-306) are parameters; storage keeps the decoded structure since
protobuf encode/decode round-trips.
-/

/-- The relay `Message` protobuf (generated; the fields this handler reads
and writes). -/
structure RelayMessage where
  senderPubKey : Bytes
  serializedPayload : Bytes
  payloadDigest : Bytes
  deriving DecidableEq, Repr

/-- `PutMessageError` (`src/src/net/messages.rs:215-222`). -/
inductive PutMessageError where
  | db
  | destinationMalformed
  | messagesDecode
  | payloadDecode
  | stamp
  deriving DecidableEq, Repr

/-- One iteration of the verification loop
(`src/src/net/messages.rs:275-319`): hash the sender key, hash the payload,
stamp-check unless self-send, set the digest, and empty the payload if it
exceeds the truncation threshold.  Returns the rewritten message, its
digest, and the sender hash. -/
def processMessage (sha256 hash160 : Bytes → Bytes) (trunc : Nat)
    (stampCheck : RelayMessage → Except PutMessageError Unit)
    (addrBody : Bytes) (msg : RelayMessage) :
    Except PutMessageError (RelayMessage × Bytes × Bytes) :=
  match (if addrBody ≠ hash160 msg.senderPubKey then stampCheck msg
    else .ok ()) with
  | .error e => .error e
  | .ok () =>
    .ok ({ msg with
        payloadDigest := sha256 msg.serializedPayload,
        serializedPayload :=
          if msg.serializedPayload.length > trunc then []
          else msg.serializedPayload },
      sha256 msg.serializedPayload, hash160 msg.senderPubKey)

/-- The verification loop over the whole set; the first failure aborts the
request before anything is stored. -/
def processAll (sha256 hash160 : Bytes → Bytes) (trunc : Nat)
    (stampCheck : RelayMessage → Except PutMessageError Unit)
    (addrBody : Bytes) :
    List RelayMessage →
      Except PutMessageError (List (RelayMessage × Bytes × Bytes))
  | [] => .ok []
  | msg :: rest =>
    match processMessage sha256 hash160 trunc stampCheck addrBody msg with
    | .error e => .error e
    | .ok triple =>
      match processAll sha256 hash160 trunc stampCheck addrBody rest with
      | .error e => .error e
      | .ok triples => .ok (triple :: triples)

/-- The relay store split by namespace byte (message rows vs digest-index
rows; the bytes never collide, so the split is extensionally the single
keyspace of `src/src/db.rs`). -/
structure MsgStore where
  msgRows : List (Bytes × RelayMessage)
  digestRows : List (Bytes × Bytes)
  deriving Repr

/-- `Database::push_message` acting on decoded messages. -/
def MsgStore.push (db : MsgStore) (pubkeyHash : Bytes) (timestamp : Nat)
    (msg : RelayMessage) (digest : Bytes) : MsgStore :=
  ⟨kvPut db.msgRows (msgKey pubkeyHash timestamp digest) msg,
    kvPut db.digestRows (digestKey pubkeyHash digest) (beBytes 8 timestamp)⟩

/-- `Database::get_message_by_digest` acting on decoded messages. -/
def MsgStore.getMessageByDigest (db : MsgStore) (pubkeyHash digest : Bytes) :
    Option RelayMessage :=
  match kvGet db.digestRows (digestKey pubkeyHash digest) with
  | some ts => kvGet db.msgRows (pubkeyHash ++ [109] ++ ts ++ digest.take 4)
  | none => none

/-- The storage loop (`src/src/net/messages.rs:324-354`): push each
processed message under the destination address, then under the sender's
pubkey hash. -/
def storeAll (addrBody : Bytes) (timestamp : Nat) :
    MsgStore → List (RelayMessage × Bytes × Bytes) → MsgStore
  | db, [] => db
  | db, (msg, dg, sh) :: rest =>
    storeAll addrBody timestamp
      ((db.push addrBody timestamp msg dg).push sh timestamp msg dg) rest

/-- `sender_map` insertion (`src/src/net/messages.rs:344-353`): append to an
existing sender's vector, or start a new one. -/
def addToSenderMap (groups : List (Bytes × List RelayMessage)) (k : Bytes)
    (msg : RelayMessage) : List (Bytes × List RelayMessage) :=
  match groups with
  | [] => [(k, [msg])]
  | (k', msgs) :: rest =>
    if k' = k then (k', msgs ++ [msg]) :: rest
    else (k', msgs) :: addToSenderMap rest k msg

/-- The full handler: verification loop, storage loop, then the WebSocket
sends — the destination's channel (when subscribed) receives the whole
processed set, and every sender's channel (when subscribed) receives that
sender's messages.  `bus` is the set of addresses with live channels. -/
def putMessageRelay (sha256 hash160 : Bytes → Bytes) (trunc : Nat)
    (stampCheck : RelayMessage → Except PutMessageError Unit)
    (addrBody : Bytes) (messages : List RelayMessage) (timestamp : Nat)
    (bus : List Bytes) (db : MsgStore) :
    Except PutMessageError (MsgStore × List (Bytes × List RelayMessage)) :=
  match processAll sha256 hash160 trunc stampCheck addrBody messages with
  | .error e => .error e
  | .ok processed =>
    .ok (storeAll addrBody timestamp db processed,
      (if addrBody ∈ bus then [(addrBody, processed.map (fun x => x.1))]
        else []) ++
        (processed.foldl (fun g x => addToSenderMap g x.2.2 x.1) []).filter
          (fun g => g.1 ∈ bus))

/-- A concrete 32-byte hash stand-in for SHA-256. -/
def mockSha (b : Bytes) : Bytes := List.replicate 31 0 ++ [b.length % 256]

/-- A concrete 20-byte hash stand-in for HASH160. -/
def mockHash160 (b : Bytes) : Bytes := List.replicate 19 0 ++ [b.length % 256]

/-- C1: the claim says an accepted message whose payload exceeds the
WebSocket truncation threshold is stored whole, with only the broadcast
variant emptied.  In the handler the payload is emptied *before* the
storage loop, so a GET by digest after a self-send of the 3-byte payload
`[1,2,3]` with threshold 2 returns the message with an **empty**
`serialized_payload`. -/
theorem c1_storage_truncates :
    (putMessageRelay mockSha mockHash160 2 (fun _ => .ok ())
        (List.replicate 19 0 ++ [1]) [⟨[3], [1, 2, 3], []⟩] 9 []
        ⟨[], []⟩).toOption.map (fun r =>
      (r.1.getMessageByDigest (List.replicate 19 0 ++ [1])
        (mockSha [1, 2, 3])).map (fun stored => stored.serializedPayload)) =
      some (some []) := by
  set_option maxRecDepth 10000 in rfl

/-- C8 counterexample: the claim says a sender's channel is broadcast to
only on self-send.  Here the sender hash differs from the destination body,
yet the sender's subscribed channel receives the message set. -/
theorem c8_nonself_sender_gets_broadcast :
    (List.replicate 20 1 : Bytes) ≠ mockHash160 [3] ∧
    (putMessageRelay mockSha mockHash160 100 (fun _ => .ok ())
        (List.replicate 20 1) [⟨[3], [2], []⟩] 9
        [List.replicate 19 0 ++ [1]] ⟨[], []⟩).toOption.map (fun r => r.2) =
      some [(mockHash160 [3], [⟨[3], [2], mockSha [2]⟩])] :=
  ⟨by decide, by set_option maxRecDepth 10000 in rfl⟩

theorem addToSenderMap_mem_new (groups : List (Bytes × List RelayMessage))
    (k : Bytes) (msg : RelayMessage) :
    ∃ msgs, (k, msgs) ∈ addToSenderMap groups k msg ∧ msg ∈ msgs := by
  induction groups with
  | nil => exact ⟨[msg], List.mem_cons_self _ _, List.mem_cons_self _ _⟩
  | cons g rest ih =>
    obtain ⟨k', msgs'⟩ := g
    by_cases hk : k' = k
    · subst hk
      rw [addToSenderMap, if_pos rfl]
      exact ⟨msgs' ++ [msg], List.mem_cons_self _ _,
        List.mem_append_right _ (List.mem_cons_self _ _)⟩
    · obtain ⟨msgs, hm, hmm⟩ := ih
      rw [addToSenderMap, if_neg hk]
      exact ⟨msgs, List.mem_cons_of_mem _ hm, hmm⟩

theorem addToSenderMap_mem_old (groups : List (Bytes × List RelayMessage))
    (k' : Bytes) (m' : RelayMessage) (k : Bytes) (msgs : List RelayMessage)
    (h : (k, msgs) ∈ groups) :
    ∃ msgs', (k, msgs') ∈ addToSenderMap groups k' m' ∧ msgs ⊆ msgs' := by
  induction groups with
  | nil => cases h
  | cons g rest ih =>
    obtain ⟨k₀, l₀⟩ := g
    rw [addToSenderMap]
    by_cases hk : k₀ = k'
    · rw [if_pos hk]
      rcases List.mem_cons.mp h with heq | hrest
      · injection heq with h1 h2
        subst h1
        subst h2
        exact ⟨msgs ++ [m'], List.mem_cons_self _ _,
          List.subset_append_left _ _⟩
      · exact ⟨msgs, List.mem_cons_of_mem _ hrest, List.Subset.refl _⟩
    · rw [if_neg hk]
      rcases List.mem_cons.mp h with heq | hrest
      · injection heq with h1 h2
        subst h1
        subst h2
        exact ⟨msgs, List.mem_cons_self _ _, List.Subset.refl _⟩
      · obtain ⟨msgs', hm, hsub⟩ := ih hrest
        exact ⟨msgs', List.mem_cons_of_mem _ hm, hsub⟩

theorem senderMap_fold_mem (processed : List (RelayMessage × Bytes × Bytes))
    (acc : List (Bytes × List RelayMessage)) (pm : RelayMessage)
    (dg sh : Bytes)
    (h : (pm, dg, sh) ∈ processed ∨
      ∃ msgs₀, (sh, msgs₀) ∈ acc ∧ pm ∈ msgs₀) :
    ∃ msgs, (sh, msgs) ∈
      processed.foldl (fun g x => addToSenderMap g x.2.2 x.1) acc ∧
      pm ∈ msgs := by
  induction processed generalizing acc with
  | nil =>
    rcases h with h | ⟨msgs₀, hm, hpm⟩
    · cases h
    · exact ⟨msgs₀, hm, hpm⟩
  | cons x rest ih =>
    rcases h with h | ⟨msgs₀, hm, hpm⟩
    · rcases List.mem_cons.mp h with rfl | hrest
      · obtain ⟨msgs₀, hm, hpm⟩ :=
          addToSenderMap_mem_new acc sh pm
        exact ih _ (Or.inr ⟨msgs₀, hm, hpm⟩)
      · exact ih _ (Or.inl hrest)
    · obtain ⟨msgs', hm', hsub⟩ := addToSenderMap_mem_old acc x.2.2 x.1 sh
        msgs₀ hm
      exact ih _ (Or.inr ⟨msgs', hm', hsub hpm⟩)

theorem processAll_length (sha256 hash160 : Bytes → Bytes) (trunc : Nat)
    (stampCheck : RelayMessage → Except PutMessageError Unit)
    (addrBody : Bytes) (messages : List RelayMessage)
    (processed : List (RelayMessage × Bytes × Bytes))
    (h : processAll sha256 hash160 trunc stampCheck addrBody messages =
      .ok processed) : processed.length = messages.length := by
  induction messages generalizing processed with
  | nil =>
    rw [processAll] at h
    cases h
    rfl
  | cons msg rest ih =>
    rw [processAll] at h
    rcases hp : processMessage sha256 hash160 trunc stampCheck addrBody msg
        with e | triple <;> rw [hp] at h
    · exact Except.noConfusion h
    · rcases hr : processAll sha256 hash160 trunc stampCheck addrBody rest
          with e | triples <;> rw [hr] at h
      · exact Except.noConfusion h
      · cases h
        simp [ih triples hr]

theorem processMessage_ok_shape (sha256 hash160 : Bytes → Bytes)
    (trunc : Nat) (stampCheck : RelayMessage → Except PutMessageError Unit)
    (addrBody : Bytes) (msg : RelayMessage)
    (triple : RelayMessage × Bytes × Bytes)
    (h : processMessage sha256 hash160 trunc stampCheck addrBody msg =
      .ok triple) :
    triple.1.senderPubKey = msg.senderPubKey ∧
      triple.2.2 = hash160 msg.senderPubKey := by
  rw [processMessage] at h
  rcases hsc : (if addrBody ≠ hash160 msg.senderPubKey then stampCheck msg
      else .ok ()) with e | u <;> rw [hsc] at h
  · exact Except.noConfusion h
  · cases u
    cases h
    exact ⟨rfl, rfl⟩

theorem processAll_mem (sha256 hash160 : Bytes → Bytes) (trunc : Nat)
    (stampCheck : RelayMessage → Except PutMessageError Unit)
    (addrBody : Bytes) (messages : List RelayMessage)
    (processed : List (RelayMessage × Bytes × Bytes)) (msg : RelayMessage)
    (hmem : msg ∈ messages)
    (h : processAll sha256 hash160 trunc stampCheck addrBody messages =
      .ok processed) :
    ∃ pm dg, (pm, dg, hash160 msg.senderPubKey) ∈ processed ∧
      pm.senderPubKey = msg.senderPubKey := by
  induction messages generalizing processed with
  | nil => cases hmem
  | cons m rest ih =>
    rw [processAll] at h
    rcases hp : processMessage sha256 hash160 trunc stampCheck addrBody m
        with e | triple <;> rw [hp] at h
    · exact Except.noConfusion h
    · rcases hr : processAll sha256 hash160 trunc stampCheck addrBody rest
          with e | triples <;> rw [hr] at h
      · exact Except.noConfusion h
      · cases h
        rcases List.mem_cons.mp hmem with rfl | hrest
        · obtain ⟨hsk, hsh⟩ := processMessage_ok_shape sha256 hash160 trunc
            stampCheck addrBody msg triple hp
          refine ⟨triple.1, triple.2.1, ?_, hsk⟩
          rw [← hsh]
          exact List.mem_cons_self _ _
        · obtain ⟨pm, dg, hmem', hsk⟩ := ih triples hrest hr
          exact ⟨pm, dg, List.mem_cons_of_mem _ hmem', hsk⟩

/-- C8 (amended): for every accepted message set, the broadcast goes to the
destination's channel (when subscribed) with the whole processed set, and to
**every** sender's channel (when subscribed) with that sender's messages —
regardless of whether the message is a self-send. -/
theorem c8_broadcast_targets (sha256 hash160 : Bytes → Bytes) (trunc : Nat)
    (stampCheck : RelayMessage → Except PutMessageError Unit)
    (addrBody : Bytes) (messages : List RelayMessage) (timestamp : Nat)
    (bus : List Bytes) (db : MsgStore) :
    ∀ db' sends, putMessageRelay sha256 hash160 trunc stampCheck addrBody
        messages timestamp bus db = .ok (db', sends) →
      (addrBody ∈ bus →
        ∃ msgs, (addrBody, msgs) ∈ sends ∧
          msgs.length = messages.length) ∧
      (∀ msg ∈ messages, hash160 msg.senderPubKey ∈ bus →
        ∃ msgs pm, (hash160 msg.senderPubKey, msgs) ∈ sends ∧ pm ∈ msgs ∧
          pm.senderPubKey = msg.senderPubKey) := by
  intro db' sends hok
  rw [putMessageRelay] at hok
  rcases hpa : processAll sha256 hash160 trunc stampCheck addrBody messages
      with e | processed <;> rw [hpa] at hok
  · exact Except.noConfusion hok
  · have hsends : sends =
        (if addrBody ∈ bus then [(addrBody, processed.map (fun x => x.1))]
          else []) ++
          (processed.foldl (fun g x => addToSenderMap g x.2.2 x.1)
            []).filter (fun g => g.1 ∈ bus) := by
      have := Except.ok.inj hok
      exact (congrArg Prod.snd this).symm
    constructor
    · intro hbus
      refine ⟨processed.map (fun x => x.1), ?_, ?_⟩
      · rw [hsends, if_pos hbus]
        exact List.mem_append_left _ (List.mem_cons_self _ _)
      · rw [List.length_map]
        exact processAll_length sha256 hash160 trunc stampCheck addrBody
          messages processed hpa
    · intro msg hmsg hbus
      obtain ⟨pm, dg, hmemp, hsk⟩ := processAll_mem sha256 hash160 trunc
        stampCheck addrBody messages processed msg hmsg hpa
      obtain ⟨msgs, hmg, hpm⟩ := senderMap_fold_mem processed [] pm dg
        (hash160 msg.senderPubKey) (Or.inl hmemp)
      refine ⟨msgs, pm, ?_, hpm, hsk⟩
      rw [hsends]
      exact List.mem_append_right _
        (List.mem_filter.mpr ⟨hmg, by simpa using hbus⟩)

/-- Witness for `c8_broadcast_targets`: one non-self-send message whose
sender (only) is subscribed; the sender's channel receives it. -/
theorem c8_broadcast_targets_witness :
    (putMessageRelay mockSha mockHash160 100 (fun _ => .ok ())
        (List.replicate 20 1) [⟨[3], [2], []⟩] 9 [mockHash160 [3]]
        ⟨[], []⟩ = .ok
      (⟨[(msgKey (mockHash160 [3]) 9 (mockSha [2]),
            ⟨[3], [2], mockSha [2]⟩),
          (msgKey (List.replicate 20 1) 9 (mockSha [2]),
            ⟨[3], [2], mockSha [2]⟩)],
        [(digestKey (mockHash160 [3]) (mockSha [2]), beBytes 8 9),
          (digestKey (List.replicate 20 1) (mockSha [2]), beBytes 8 9)]⟩,
        [(mockHash160 [3], [⟨[3], [2], mockSha [2]⟩])])) ∧
    (((List.replicate 20 1 : Bytes) ∈ [mockHash160 [3]] →
      ∃ msgs, ((List.replicate 20 1 : Bytes), msgs) ∈
          [(mockHash160 [3], [(⟨[3], [2], mockSha [2]⟩ : RelayMessage)])] ∧
        msgs.length = [(⟨[3], [2], []⟩ : RelayMessage)].length) ∧
    (∀ msg ∈ [(⟨[3], [2], []⟩ : RelayMessage)],
      mockHash160 msg.senderPubKey ∈ [mockHash160 [3]] →
      ∃ msgs pm, (mockHash160 msg.senderPubKey, msgs) ∈
          [(mockHash160 [3], [(⟨[3], [2], mockSha [2]⟩ : RelayMessage)])] ∧
        pm ∈ msgs ∧ pm.senderPubKey = msg.senderPubKey)) :=
  ⟨by set_option maxRecDepth 10000 in rfl,
    c8_broadcast_targets mockSha mockHash160 100 (fun _ => .ok ())
      (List.replicate 20 1) [⟨[3], [2], []⟩] 9 [mockHash160 [3]] ⟨[], []⟩
      _ _ (by set_option maxRecDepth 10000 in rfl)⟩

/-!
## Stamp verification (`src/src/stamps.rs`)

secp256k1 point arithmetic, BIP32 child derivation, the rust-bitcoin
transaction decoder and the node broadcast are parameters; the scalar check
of `SecretKey::from_slice` is concrete.  `none` models a panic: the source
calls `.unwrap()` on the scalar conversion (line 61) and on each BIP32
child derivation (lines 81-89, 98, 114).
-/

/-- The secp256k1 group order. -/
def secpOrder : Nat :=
  0xFFFFFFFFFFFFFFFFFFFFFFFFFFFFFFFEBAAEDCE6AF48A03BBFD25E8CD0364141

/-- `SecretKey::from_slice`: accepts exactly 32 bytes whose big-endian value
is a non-zero scalar below the curve order. -/
def secretKeyFromSlice (b : Bytes) : Option Nat :=
  if b.length = 32 ∧ 0 < beNat b ∧ beNat b < secpOrder then some (beNat b)
  else none

/-- `StampError` (`src/src/stamps.rs:27-36`). -/
inductive StampError where
  | decode
  | missingOutput
  | notP2pkh
  | txReject
  | unexpectedAddress
  | degenerateCombination
  | childNumberOverflow
  deriving DecidableEq, Repr

/-- `StampOutpoints` from the relay protobuf: a raw stamp transaction and
the claimed output indices. -/
structure StampOutpoints where
  stampTx : Bytes
  vouts : List Nat
  deriving DecidableEq, Repr

/-- rust-bitcoin `Script::is_p2pkh`. -/
def isP2pkh (script : Bytes) : Bool :=
  script.length = 25 && script.getD 0 0 = 118 && script.getD 1 0 = 169 &&
    script.getD 2 0 = 20 && script.getD 23 0 = 136 && script.getD 24 0 = 172

/-- The inner vout loop (`src/src/stamps.rs:100-122`): fetch the output,
require P2PKH, derive the child key (`.unwrap()` → panic on failure), and
compare hashes. -/
def verifyVouts {PK : Type} (ckdPub : PK × Bytes → Nat → Option (PK × Bytes))
    (pkBytes : PK → Bytes) (hash160 : Bytes → Bytes) (txChild : PK × Bytes)
    (outputs : List Bytes) : List Nat → Option (Except StampError Unit)
  | [] => some (.ok ())
  | vout :: rest =>
    match outputs.get? vout with
    | none => some (.error .missingOutput)
    | some script =>
      if ¬isP2pkh script then some (.error .notP2pkh)
      else if vout ≥ 2 ^ 31 then some (.error .childNumberOverflow)
      else
        match ckdPub txChild vout with
        | none => none
        | some childKey =>
          if hash160 (pkBytes childKey.1) = (script.drop 3).take 20 then
            verifyVouts ckdPub pkBytes hash160 txChild outputs rest
          else some (.error .unexpectedAddress)

/-- The outer outpoint loop (`src/src/stamps.rs:92-128`): decode each
transaction, derive the per-transaction child (`.unwrap()` → panic), check
every vout, then broadcast. -/
def verifyStampLoop {PK : Type}
    (ckdPub : PK × Bytes → Nat → Option (PK × Bytes)) (pkBytes : PK → Bytes)
    (hash160 : Bytes → Bytes) (txDeserialize : Bytes → Option (List Bytes))
    (sendOk : Bytes → Bool) (intermediate : PK × Bytes) :
    Nat → List StampOutpoints → Option (Except StampError Unit)
  | _, [] => some (.ok ())
  | txNum, op :: rest =>
    match txDeserialize op.stampTx with
    | none => some (.error .decode)
    | some outputs =>
      if txNum ≥ 2 ^ 31 then some (.error .childNumberOverflow)
      else
        match ckdPub intermediate txNum with
        | none => none
        | some txChild =>
          match verifyVouts ckdPub pkBytes hash160 txChild outputs
              op.vouts with
          | none => none
          | some (.error e) => some (.error e)
          | some (.ok ()) =>
            if sendOk op.stampTx then
              verifyStampLoop ckdPub pkBytes hash160 txDeserialize sendOk
                intermediate (txNum + 1) rest
            else some (.error .txReject)

/-- `verify_stamps` (`src/src/stamps.rs:53-131`): interpret the payload
digest as a secret key — `.unwrap()`, i.e. **panic** (`none`) when the
digest is not a valid non-zero scalar — combine with the destination key,
build the BIP32 master key and derive `/44/145` (each `.unwrap()`), then
check each outpoint. -/
def verifyStamps {PK : Type} (sha256 : Bytes → Bytes)
    (pubFromSecret : Nat → PK) (combine : PK → PK → Option PK)
    (ckdPub : PK × Bytes → Nat → Option (PK × Bytes)) (pkBytes : PK → Bytes)
    (hash160 : Bytes → Bytes) (txDeserialize : Bytes → Option (List Bytes))
    (sendOk : Bytes → Bool) (stampOutpoints : List StampOutpoints)
    (serializedPayload : Bytes) (destinationPubkey : PK) :
    Option (Except StampError Unit) :=
  match secretKeyFromSlice (sha256 serializedPayload) with
  | none => none
  | some s =>
    match combine destinationPubkey (pubFromSecret s) with
    | none => some (.error .degenerateCombination)
    | some combined =>
      match ckdPub (combined, sha256 serializedPayload) 44 with
      | none => none
      | some k44 =>
        match ckdPub k44 145 with
        | none => none
        | some intermediate =>
          verifyStampLoop ckdPub pkBytes hash160 txDeserialize sendOk
            intermediate 0 stampOutpoints

/-- C4: the claim says `verify_stamps` returns an error (never panics) when
the payload digest is zero or at least the curve order.  The code instead
calls `SecretKey::from_slice(..).unwrap()`, so any such digest panics: the
model returns `none` (panic) whenever the digest is outside the valid
scalar range, for every choice of the abstracted primitives and inputs. -/
theorem c4_verify_stamps_panics_on_invalid_scalar {PK : Type}
    (sha256 : Bytes → Bytes) (pubFromSecret : Nat → PK)
    (combine : PK → PK → Option PK)
    (ckdPub : PK × Bytes → Nat → Option (PK × Bytes)) (pkBytes : PK → Bytes)
    (hash160 : Bytes → Bytes) (txDeserialize : Bytes → Option (List Bytes))
    (sendOk : Bytes → Bool) (stampOutpoints : List StampOutpoints)
    (serializedPayload : Bytes) (destinationPubkey : PK)
    (h : ¬((sha256 serializedPayload).length = 32 ∧
      0 < beNat (sha256 serializedPayload) ∧
      beNat (sha256 serializedPayload) < secpOrder)) :
    verifyStamps sha256 pubFromSecret combine ckdPub pkBytes hash160
      txDeserialize sendOk stampOutpoints serializedPayload
      destinationPubkey = none := by
  rw [verifyStamps, secretKeyFromSlice, if_neg h]

/-- Witness for `c4_verify_stamps_panics_on_invalid_scalar`: a hash whose
output is the all-zero digest (value 0, not a valid scalar) panics. -/
theorem c4_verify_stamps_panics_witness :
    (¬(((fun (_ : Bytes) => List.replicate 32 0) ([] : Bytes)).length = 32 ∧
      0 < beNat ((fun (_ : Bytes) => List.replicate 32 0) ([] : Bytes)) ∧
      beNat ((fun (_ : Bytes) => List.replicate 32 0) ([] : Bytes)) <
        secpOrder)) ∧
    @verifyStamps Unit (fun _ => List.replicate 32 0) (fun _ => ())
      (fun _ _ => some ()) (fun _ _ => some ((), [])) (fun _ => [])
      (fun _ => List.replicate 20 0) (fun _ => some []) (fun _ => true) []
      [] () = none :=
  ⟨by decide,
    @c4_verify_stamps_panics_on_invalid_scalar Unit
      (fun _ => List.replicate 32 0) (fun _ => ()) (fun _ _ => some ())
      (fun _ _ => some ((), [])) (fun _ => []) (fun _ => List.replicate 20 0)
      (fun _ => some []) (fun _ => true) [] [] () (by decide)⟩

/-!
## `cashweb-bitcoin` transaction decoding

`VarInt`, `Output` and `Input` decoding are ported from
`src/lib/cashweb-bitcoin/src/var_int.rs`, `transaction/output.rs` and
`transaction/input.rs`.  The outpoint and transaction layouts
(`transaction/outpoint.rs` and `transaction/mod.rs` are not under `src/`)
are modelled from the spec.  Decoders consume a byte list and return the
value plus the remaining bytes.
-/

/-- `var_int::DecodeError`. -/
inductive VarIntDecodeError where
  | tooShort
  | nonMinimal
  deriving DecidableEq, Repr

/-- `VarInt::decode` (`src/lib/cashweb-bitcoin/src/var_int.rs:63-110`). -/
def VarInt.decode : Bytes → Except VarIntDecodeError (Nat × Bytes)
  | [] => .error .tooShort
  | b :: rest =>
    if b = 255 then
      if rest.length < 8 then .error .tooShort
      else if leNat (rest.take 8) < 0x100000000 then .error .nonMinimal
      else .ok (leNat (rest.take 8), rest.drop 8)
    else if b = 254 then
      if rest.length < 4 then .error .tooShort
      else if leNat (rest.take 4) < 0x10000 then .error .nonMinimal
      else .ok (leNat (rest.take 4), rest.drop 4)
    else if b = 253 then
      if rest.length < 2 then .error .tooShort
      else if leNat (rest.take 2) < 0xfd then .error .nonMinimal
      else .ok (leNat (rest.take 2), rest.drop 2)
    else .ok (b, rest)

/-- `transaction::output::DecodeError`. -/
inductive OutputDecodeError where
  | valueTooShort
  | scriptLen
  | scriptTooShort
  deriving DecidableEq, Repr

/-- An `Output`: a value and a raw script. -/
structure Output where
  value : Nat
  script : Bytes
  deriving DecidableEq, Repr

/-- `Output::decode` (`src/lib/cashweb-bitcoin/src/transaction/output.rs:49-71`). -/
def Output.decode (buf : Bytes) : Except OutputDecodeError (Output × Bytes) :=
  if buf.length < 8 then .error .valueTooShort
  else
    match VarInt.decode (buf.drop 8) with
    | .error _ => .error .scriptLen
    | .ok (scriptLen, buf2) =>
      if buf2.length < scriptLen then .error .scriptTooShort
      else .ok (⟨leNat (buf.take 8), buf2.take scriptLen⟩, buf2.drop scriptLen)

/-- `transaction::input::DecodeError`. -/
inductive InputDecodeError where
  | outpoint
  | scriptLen
  | scriptTooShort
  | sequenceTooShort
  deriving DecidableEq, Repr

/-- An `Input`. -/
structure Input where
  outpointTxid : Bytes
  outpointIndex : Nat
  script : Bytes
  sequence : Nat
  deriving DecidableEq, Repr

/-- `Input::decode` (`src/lib/cashweb-bitcoin/src/transaction/input.rs:60-92`).
Modelled from the spec: the outpoint (`transaction/outpoint.rs` is not under
`src/`) is the standard 36-byte `txid ++ u32-LE index`. -/
def Input.decode (buf : Bytes) : Except InputDecodeError (Input × Bytes) :=
  if buf.length < 36 then .error .outpoint
  else
    match VarInt.decode (buf.drop 36) with
    | .error _ => .error .scriptLen
    | .ok (scriptLen, buf2) =>
      if buf2.length < scriptLen then .error .scriptTooShort
      else if (buf2.drop scriptLen).length < 4 then .error .sequenceTooShort
      else .ok (⟨buf.take 32, leNat ((buf.drop 32).take 4),
        buf2.take scriptLen, leNat ((buf2.drop scriptLen).take 4)⟩,
        (buf2.drop scriptLen).drop 4)

/-- Decode `n` consecutive items. -/
def decodeMany {α E : Type} (dec : Bytes → Except E (α × Bytes)) :
    Nat → Bytes → Except E (List α × Bytes)
  | 0, buf => .ok ([], buf)
  | n + 1, buf =>
    match dec buf with
    | .error e => .error e
    | .ok (a, buf') =>
      match decodeMany dec n buf' with
      | .error e => .error e
      | .ok (as, buf'') => .ok (a :: as, buf'')

/-- `transaction::DecodeError` variants relevant to the model. -/
inductive TransactionDecodeError where
  | version
  | inputCount
  | input (e : InputDecodeError)
  | outputCount
  | output (e : OutputDecodeError)
  | lockTime
  deriving DecidableEq, Repr

/-- A `Transaction`. -/
structure Transaction where
  version : Nat
  inputs : List Input
  outputs : List Output
  lockTime : Nat
  deriving DecidableEq, Repr

/-- Modelled from the spec: `Transaction::decode` (`transaction/mod.rs` is
not under `src/`; §2 C2 fixes the layout: version, inputs, outputs
(value + script), locktime) — 4-byte LE version, varint-counted inputs and
outputs, 4-byte LE locktime. -/
def Transaction.decode (buf : Bytes) :
    Except TransactionDecodeError (Transaction × Bytes) :=
  if buf.length < 4 then .error .version
  else
    match VarInt.decode (buf.drop 4) with
    | .error _ => .error .inputCount
    | .ok (nIn, b1) =>
      match decodeMany Input.decode nIn b1 with
      | .error e => .error (.input e)
      | .ok (inputs, b2) =>
        match VarInt.decode b2 with
        | .error _ => .error .outputCount
        | .ok (nOut, b3) =>
          match decodeMany Output.decode nOut b3 with
          | .error e => .error (.output e)
          | .ok (outputs, b4) =>
            if b4.length < 4 then .error .lockTime
            else .ok (⟨leNat (buf.take 4), inputs, outputs,
              leNat (b4.take 4)⟩, b4.drop 4)

/-!
## Keyserver pub/sub publish (`src/keyserver/src/pubsub/handlers.rs:83-225`)

SHA-256, `transaction_id`, the `BroadcastMessage` protobuf decoder, the
topic hash of the store and the node broadcast are parameters.  `none`
models a panic: the handler `.expect`s the decode of each declared burn
transaction and indexes `tx.outputs[idx]` and `raw_script[6]` unchecked.
-/

/-- Modelled from the spec: the generated `BroadcastMessage` protobuf
(`broadcast.rs` is generated, not under `src/`): a dotted topic and a
client timestamp. -/
structure BroadcastMessage where
  topic : List Char
  timestamp : Int
  deriving DecidableEq, Repr

/-- `MessagesRpcRejection` (`src/keyserver/src/pubsub/handlers.rs:19-37`). -/
inductive MessagesRpcRejection where
  | protoBufDecodeError
  | bitcoinRPCError
  | databaseError (e : PubSubDatabaseError)
  | invalidOutputFormat
  | invalidOutputCommitment
  | transactionInvalidError
  | transactionOutputInvalid
  | invalidTopicFormat
  deriving DecidableEq, Repr

/-- Rust `HashMap::insert` modelled extensionally: replace any entry under
the key, append otherwise (iteration order of the Rust map is unspecified;
only the key-value content matters downstream). -/
def mapInsert {β : Type} (m : List (Bytes × β)) (k : Bytes) (v : β) :
    List (Bytes × β) :=
  m.filter (fun kv => kv.1 ≠ k) ++ [(k, v)]

/-- `Script::is_op_return` (`src/lib/cashweb-bitcoin/src/transaction/script/mod.rs:59-61`). -/
def isOpReturn (script : Bytes) : Bool :=
  !script.isEmpty && script.getD 0 0 = 106

/-- The burn-output check loop over the declared transactions
(`src/keyserver/src/pubsub/handlers.rs:116-161`): decode (`.expect` →
panic), index `outputs[idx]` (panic when out of range), require the
OP_RETURN `POND` commitment shape, match the commitment against the payload
digest, convert the value to `i64`, and de-duplicate by `txid ++ index`. -/
def checkBurnsNew (txid : Transaction → Bytes) (digest : Bytes) :
    List BurnOutputs → List (Bytes × (BurnOutputs × Int)) →
      Option (Except MessagesRpcRejection
        (List (Bytes × (BurnOutputs × Int))))
  | [], acc => some (.ok acc)
  | t :: rest, acc =>
    match Transaction.decode t.tx with
    | .error _ => none
    | .ok (tx, _) =>
      match tx.outputs.get? t.index with
      | none => none
      | some output =>
        if ¬isOpReturn output.script then some (.error .invalidOutputFormat)
        else if output.script.length ≠ 40 then
          some (.error .invalidOutputFormat)
        else if ¬(output.script.getD 1 0 = 4 ∧
            (output.script.drop 2).take 4 = [80, 79, 78, 68] ∧
            (output.script.getD 6 0 = 81 ∨ output.script.getD 6 0 = 0) ∧
            output.script.getD 7 0 = 32) then
          some (.error .invalidOutputFormat)
        else if digest ≠ (output.script.drop 8).take 32 then
          some (.error .invalidOutputCommitment)
        else if output.value ≥ 2 ^ 63 then
          some (.error .transactionOutputInvalid)
        else
          checkBurnsNew txid digest rest
            (mapInsert acc (txid tx ++ beBytes 4 t.index)
              (t, if output.script.getD 6 0 = 81 then (output.value : Int)
                else -(output.value : Int)))

/-- The de-duplication loop over the already-stored transactions
(`src/keyserver/src/pubsub/handlers.rs:176-194`): here a decode failure is
a mapped error, but `outputs[idx]` and `raw_script[6]` are still unchecked
indexing (panic). -/
def checkBurnsExisting (txid : Transaction → Bytes) :
    List BurnOutputs → List (Bytes × (BurnOutputs × Int)) →
      Option (Except MessagesRpcRejection
        (List (Bytes × (BurnOutputs × Int))))
  | [], acc => some (.ok acc)
  | t :: rest, acc =>
    match Transaction.decode t.tx with
    | .error _ => some (.error .transactionInvalidError)
    | .ok (tx, _) =>
      match tx.outputs.get? t.index with
      | none => none
      | some output =>
        if output.script.length ≤ 6 then none
        else if output.value ≥ 2 ^ 63 then
          some (.error .transactionOutputInvalid)
        else
          checkBurnsExisting txid rest
            (mapInsert acc (txid tx ++ beBytes 4 t.index)
              (t, if output.script.getD 6 0 = 81 then (output.value : Int)
                else -(output.value : Int)))

/-- The keyserver pub/sub `put_message` handler
(`src/keyserver/src/pubsub/handlers.rs:83-225`). -/
def putMessageKS (sha256 : Bytes → Bytes) (txid : Transaction → Bytes)
    (payloadDecode : Bytes → Option BroadcastMessage)
    (shaTopic : List Char → Bytes) (sendOk : Bytes → Bool) (db : PubSubDB)
    (message : AuthWrapperKS) (timestamp : Nat) :
    Option (Except MessagesRpcRejection (PubSubDB × AuthWrapperKS)) :=
  if message.transactions.length = 0 then some (.error .invalidOutputFormat)
  else
    match payloadDecode (if message.payloadDigest.length = 0 then
        { message with payloadDigest := sha256 message.payload }
      else message).payload with
    | none => some (.error .protoBufDecodeError)
    | some bm =>
      if (splitSegs bm.topic).length > 10 then
        some (.error .invalidTopicFormat)
      else if (splitSegs bm.topic).any (fun s => decide (s.length = 0)) then
        some (.error .invalidTopicFormat)
      else
        match checkBurnsNew txid (if message.payloadDigest.length = 0 then
            { message with payloadDigest := sha256 message.payload }
          else message).payloadDigest
            message.transactions [] with
        | none => none
        | some (.error e) => some (.error e)
        | some (.ok burnMap) =>
          if ¬(message.transactions.all (fun t => sendOk t.tx)) then
            some (.error .bitcoinRPCError)
          else
            match kvGet db.payloadsCF
                (if message.payloadDigest.length = 0 then
                  { message with payloadDigest := sha256 message.payload }
                else message).payloadDigest,
                message.payload with
            | some w, [] =>
              match checkBurnsExisting txid w.transactions burnMap with
              | none => none
              | some (.error e) => some (.error e)
              | some (.ok burnMap') =>
                some (.ok (db.updateMessage
                  { w with
                    transactions := burnMap'.map (fun kv => kv.2.1),
                    burnAmount := (burnMap'.map (fun kv => kv.2.2)).sum },
                  { w with
                    transactions := burnMap'.map (fun kv => kv.2.1),
                    burnAmount := (burnMap'.map (fun kv => kv.2.2)).sum }))
            | _, _ =>
              match PubSubDB.putMessage shaTopic db timestamp bm.topic
                  { (if message.payloadDigest.length = 0 then
                      { message with payloadDigest := sha256 message.payload }
                    else message) with
                    burnAmount := (burnMap.map (fun kv => kv.2.2)).sum } with
              | .error e => some (.error (.databaseError e))
              | .ok db' =>
                some (.ok (db',
                  { (if message.payloadDigest.length = 0 then
                      { message with payloadDigest := sha256 message.payload }
                    else message) with
                    burnAmount := (burnMap.map (fun kv => kv.2.2)).sum }))

/-- C10: the keyserver pub/sub `put_message` handler is not total: a
declared burn transaction with an out-of-range output index panics at
`tx.outputs[idx]` (first conjunct: a valid transaction with zero outputs,
index 0), and undecodable transaction bytes panic at the `.expect` (second
conjunct: empty bytes).  `none` is the panic. -/
theorem c10_put_message_panics :
    putMessageKS mockSha (fun _ => List.replicate 32 1)
      (fun _ => some ⟨['a'], 0⟩) c5sha (fun _ => true) ⟨[], []⟩
      ⟨[], List.replicate 32 9, [⟨[1, 0, 0, 0, 0, 0, 0, 0, 0, 0], 0⟩], 0⟩
      5 = none ∧
    putMessageKS mockSha (fun _ => List.replicate 32 1)
      (fun _ => some ⟨['a'], 0⟩) c5sha (fun _ => true) ⟨[], []⟩
      ⟨[], List.replicate 32 9, [⟨[], 0⟩], 0⟩ 5 = none :=
  ⟨by set_option maxRecDepth 10000 in rfl,
    by set_option maxRecDepth 10000 in rfl⟩

/-- The signed burn contribution of one declared output, as the claim
words it: `+value` when the sixth script byte is `0x51` (upvote), `−value`
for `0x00` (downvote), keyed by the de-duplication key `txid ++ index`. -/
def signedBurn (txid : Transaction → Bytes) (t : BurnOutputs) :
    Option (Bytes × Int) :=
  match Transaction.decode t.tx with
  | .error _ => none
  | .ok (tx, _) =>
    match tx.outputs.get? t.index with
    | none => none
    | some output =>
      if output.value < 2 ^ 63 then
        some (txid tx ++ beBytes 4 t.index,
          if output.script.getD 6 0 = 81 then (output.value : Int)
          else -(output.value : Int))
      else none

/-- Signed contributions of a whole list of declared outputs. -/
def signedAll (txid : Transaction → Bytes) :
    List BurnOutputs → Option (List (Bytes × Int))
  | [] => some []
  | t :: rest =>
    match signedBurn txid t, signedAll txid rest with
    | some e, some es => some (e :: es)
    | _, _ => none

/-- De-duplicate by key, keeping the last occurrence of each key. -/
def dedupByKey : List (Bytes × Int) → List (Bytes × Int)
  | [] => []
  | (k, v) :: rest =>
    if k ∈ rest.map Prod.fst then dedupByKey rest
    else (k, v) :: dedupByKey rest

/-- The claim's burn total: the signed sum over the set of `(txid, index)`
pairs after de-duplication. -/
def specBurnSum (l : List (Bytes × Int)) : Int :=
  ((dedupByKey l).map Prod.snd).sum

/-- Key-and-sign projection of the handler's accumulator map. -/
def mapSigned (m : List (Bytes × (BurnOutputs × Int))) :
    List (Bytes × Int) :=
  m.map (fun kv => (kv.1, kv.2.2))

/-- The already-stored outputs that the handler folds in: present exactly
when the digest already has a payload row and the incoming payload is
empty (the update path). -/
def existingBurns (sha256 : Bytes → Bytes) (db : PubSubDB)
    (message : AuthWrapperKS) : List BurnOutputs :=
  match kvGet db.payloadsCF (if message.payloadDigest.length = 0 then
      { message with payloadDigest := sha256 message.payload }
    else message).payloadDigest, message.payload with
  | some w, [] => w.transactions
  | _, _ => []

theorem mapSigned_filter (m : List (Bytes × (BurnOutputs × Int)))
    (k : Bytes) :
    mapSigned (m.filter (fun kv => kv.1 ≠ k)) =
      (mapSigned m).filter (fun kv => kv.1 ≠ k) := by
  induction m with
  | nil => rfl
  | cons kv rest ih =>
    by_cases hk : kv.1 = k
    · simpa [mapSigned, List.filter_cons, hk] using ih
    · simpa [mapSigned, List.filter_cons, hk] using ih

theorem mapSigned_mapInsert (m : List (Bytes × (BurnOutputs × Int)))
    (k : Bytes) (t : BurnOutputs) (v : Int) :
    mapSigned (mapInsert m k (t, v)) = mapInsert (mapSigned m) k v := by
  rw [mapInsert, mapInsert]
  rw [show mapSigned (m.filter (fun kv => kv.1 ≠ k) ++ [(k, (t, v))]) =
    mapSigned (m.filter (fun kv => kv.1 ≠ k)) ++ [(k, v)] from
      List.map_append _ _ _]
  rw [mapSigned_filter]

theorem foldInsert_eq (entries : List (Bytes × Int)) :
    ∀ m : List (Bytes × Int),
    entries.foldl (fun a kv => mapInsert a kv.1 kv.2) m =
      m.filter (fun kv => decide (kv.1 ∉ entries.map Prod.fst)) ++
        dedupByKey entries := by
  induction entries with
  | nil =>
    intro m
    simp [dedupByKey]
  | cons e rest ih =>
    intro m
    obtain ⟨k, v⟩ := e
    rw [List.foldl_cons, ih (mapInsert m k v), mapInsert,
      List.filter_append, List.filter_filter]
    have hpred : ∀ kv : Bytes × Int,
        (decide (kv.1 ∉ rest.map Prod.fst) && decide (kv.1 ≠ k)) =
          decide (kv.1 ∉ ((k, v) :: rest).map Prod.fst) := by
      intro kv
      by_cases h1 : kv.1 = k <;> by_cases h2 : kv.1 ∈ rest.map Prod.fst <;>
        simp [h1, h2]
    rw [List.filter_congr (fun kv _ => hpred kv)]
    by_cases hk : k ∈ rest.map Prod.fst
    · rw [dedupByKey, if_pos hk]
      have hsingle : List.filter (fun kv => decide
          (kv.1 ∉ rest.map Prod.fst)) [(k, v)] = [] := by
        simp [hk]
      rw [hsingle, List.append_nil]
    · rw [dedupByKey, if_neg hk]
      have hsingle : List.filter (fun kv => decide
          (kv.1 ∉ rest.map Prod.fst)) [(k, v)] = [(k, v)] := by
        simp [hk]
      rw [hsingle, List.append_assoc]
      rfl

theorem signedAll_append (txid : Transaction → Bytes)
    (l1 l2 : List BurnOutputs) (e1 e2 : List (Bytes × Int))
    (h1 : signedAll txid l1 = some e1) (h2 : signedAll txid l2 = some e2) :
    signedAll txid (l1 ++ l2) = some (e1 ++ e2) := by
  induction l1 generalizing e1 with
  | nil =>
    rw [signedAll] at h1
    cases h1
    simpa using h2
  | cons t rest ih =>
    rw [signedAll] at h1
    rcases hb : signedBurn txid t with _ | e <;> rw [hb] at h1
    · exact Option.noConfusion h1
    · rcases hr : signedAll txid rest with _ | es <;> rw [hr] at h1
      · exact Option.noConfusion h1
      · cases h1
        rw [List.cons_append, signedAll, hb, ih es hr]
        rfl

theorem checkBurnsNew_ok (txid : Transaction → Bytes) (dg : Bytes)
    (ts : List BurnOutputs) :
    ∀ acc m, checkBurnsNew txid dg ts acc = some (.ok m) →
    ∃ entries, signedAll txid ts = some entries ∧
      mapSigned m = entries.foldl (fun a kv => mapInsert a kv.1 kv.2)
        (mapSigned acc) := by
  induction ts with
  | nil =>
    intro acc m h
    rw [checkBurnsNew] at h
    cases h
    exact ⟨[], rfl, rfl⟩
  | cons t rest ih =>
    intro acc m h
    rw [checkBurnsNew] at h
    rcases hdec : Transaction.decode t.tx with e | ⟨tx, remB⟩ <;>
      simp only [hdec] at h
    · exact Option.noConfusion h
    · rcases hout : tx.outputs.get? t.index with _ | output <;>
        simp only [hout] at h
      · exact Option.noConfusion h
      · by_cases h1 : ¬isOpReturn output.script = true
        · rw [if_pos h1] at h
          exact Except.noConfusion (Option.some.inj h)
        · rw [if_neg h1] at h
          by_cases h2 : output.script.length ≠ 40
          · rw [if_pos h2] at h
            exact Except.noConfusion (Option.some.inj h)
          · rw [if_neg h2] at h
            by_cases h3 : ¬(output.script.getD 1 0 = 4 ∧
                (output.script.drop 2).take 4 = [80, 79, 78, 68] ∧
                (output.script.getD 6 0 = 81 ∨ output.script.getD 6 0 = 0) ∧
                output.script.getD 7 0 = 32)
            · rw [if_pos h3] at h
              exact Except.noConfusion (Option.some.inj h)
            · rw [if_neg h3] at h
              by_cases h4 : dg ≠ (output.script.drop 8).take 32
              · rw [if_pos h4] at h
                exact Except.noConfusion (Option.some.inj h)
              · rw [if_neg h4] at h
                by_cases h5 : output.value ≥ 2 ^ 63
                · rw [if_pos h5] at h
                  exact Except.noConfusion (Option.some.inj h)
                · rw [if_neg h5] at h
                  obtain ⟨entries', hsig, hmap⟩ := ih _ m h
                  have hsb : signedBurn txid t =
                      some (txid tx ++ beBytes 4 t.index,
                        if output.script.getD 6 0 = 81 then
                          (output.value : Int)
                        else -(output.value : Int)) := by
                    simp only [signedBurn, hdec, hout]
                    rw [if_pos (by omega)]
                  refine ⟨(txid tx ++ beBytes 4 t.index,
                      if output.script.getD 6 0 = 81 then (output.value : Int)
                      else -(output.value : Int)) :: entries', ?_, ?_⟩
                  · rw [signedAll, hsb, hsig]
                  · rw [hmap, List.foldl_cons, mapSigned_mapInsert]

theorem checkBurnsExisting_ok (txid : Transaction → Bytes)
    (ts : List BurnOutputs) :
    ∀ acc m, checkBurnsExisting txid ts acc = some (.ok m) →
    ∃ entries, signedAll txid ts = some entries ∧
      mapSigned m = entries.foldl (fun a kv => mapInsert a kv.1 kv.2)
        (mapSigned acc) := by
  induction ts with
  | nil =>
    intro acc m h
    rw [checkBurnsExisting] at h
    cases h
    exact ⟨[], rfl, rfl⟩
  | cons t rest ih =>
    intro acc m h
    rw [checkBurnsExisting] at h
    rcases hdec : Transaction.decode t.tx with e | ⟨tx, remB⟩ <;>
      simp only [hdec] at h
    · exact Except.noConfusion (Option.some.inj h)
    · rcases hout : tx.outputs.get? t.index with _ | output <;>
        simp only [hout] at h
      · exact Option.noConfusion h
      · by_cases h1 : output.script.length ≤ 6
        · rw [if_pos h1] at h
          exact Option.noConfusion h
        · rw [if_neg h1] at h
          by_cases h2 : output.value ≥ 2 ^ 63
          · rw [if_pos h2] at h
            exact Except.noConfusion (Option.some.inj h)
          · rw [if_neg h2] at h
            obtain ⟨entries', hsig, hmap⟩ := ih _ m h
            have hsb : signedBurn txid t =
                some (txid tx ++ beBytes 4 t.index,
                  if output.script.getD 6 0 = 81 then (output.value : Int)
                  else -(output.value : Int)) := by
              simp only [signedBurn, hdec, hout]
              rw [if_pos (by omega)]
            refine ⟨(txid tx ++ beBytes 4 t.index,
                if output.script.getD 6 0 = 81 then (output.value : Int)
                else -(output.value : Int)) :: entries', ?_, ?_⟩
            · rw [signedAll, hsb, hsig]
            · rw [hmap, List.foldl_cons, mapSigned_mapInsert]

/-- C9: for every accepted pub/sub publish, the stored wrapper's
`burn_amount` equals the signed sum — `+value` for an upvote output (sixth
script byte `0x51`), `−value` for a downvote — over the declared burn
outputs after de-duplicating `(txid, index)` pairs, folding in the outputs
already recorded for the same `payload_digest` when the handler takes its
update path (digest already present and incoming payload empty). -/
theorem c9_burn_amount (sha256 : Bytes → Bytes) (txid : Transaction → Bytes)
    (payloadDecode : Bytes → Option BroadcastMessage)
    (shaTopic : List Char → Bytes) (sendOk : Bytes → Bool) (db : PubSubDB)
    (message : AuthWrapperKS) (timestamp : Nat) (db' : PubSubDB)
    (stored : AuthWrapperKS)
    (hok : putMessageKS sha256 txid payloadDecode shaTopic sendOk db message
      timestamp = some (.ok (db', stored))) :
    ∃ entries, signedAll txid
        (message.transactions ++ existingBurns sha256 db message) =
        some entries ∧
      stored.burnAmount = specBurnSum entries := by
  rw [putMessageKS] at hok
  rw [existingBurns]
  by_cases h0 : message.transactions.length = 0
  · rw [if_pos h0] at hok
    exact Except.noConfusion (Option.some.inj hok)
  · rw [if_neg h0] at hok
    generalize hmsg : (if message.payloadDigest.length = 0 then
        { message with payloadDigest := sha256 message.payload }
      else message) = msg at hok ⊢
    rcases hbm : payloadDecode msg.payload with _ | bm <;>
      simp only [hbm] at hok
    · exact Except.noConfusion (Option.some.inj hok)
    · by_cases ht1 : (splitSegs bm.topic).length > 10
      · rw [if_pos ht1] at hok
        exact Except.noConfusion (Option.some.inj hok)
      · rw [if_neg ht1] at hok
        by_cases ht2 : (splitSegs bm.topic).any
            (fun s => decide (s.length = 0)) = true
        · rw [if_pos ht2] at hok
          exact Except.noConfusion (Option.some.inj hok)
        · rw [if_neg ht2] at hok
          rcases hcb : checkBurnsNew txid msg.payloadDigest
              message.transactions [] with _ | (e | burnMap) <;>
            simp only [hcb] at hok
          · exact Option.noConfusion hok
          · exact Except.noConfusion (Option.some.inj hok)
          · by_cases hsend : (message.transactions.all
                (fun t => sendOk t.tx)) = true
            · rw [if_neg (not_not_intro hsend)] at hok
              obtain ⟨eN, hsigN, hmapN⟩ := checkBurnsNew_ok txid
                msg.payloadDigest message.transactions [] burnMap hcb
              rcases hkv : kvGet db.payloadsCF msg.payloadDigest
                  with _ | w <;>
                rcases hpl : message.payload with _ | ⟨pb, prest⟩ <;>
                simp only [hkv, hpl] at hok ⊢
              · rcases hpm : PubSubDB.putMessage shaTopic db timestamp
                    bm.topic { msg with burnAmount :=
                      (burnMap.map (fun kv => kv.2.2)).sum }
                    with e | dbx <;> simp only [hpm] at hok
                · exact Except.noConfusion (Option.some.inj hok)
                · have hpair := Except.ok.inj (Option.some.inj hok)
                  have hstored : stored = { msg with burnAmount :=
                      (burnMap.map (fun kv => kv.2.2)).sum } :=
                    (congrArg Prod.snd hpair).symm
                  refine ⟨eN, by rw [List.append_nil]; exact hsigN, ?_⟩
                  rw [hstored]
                  show (burnMap.map (fun kv => kv.2.2)).sum = specBurnSum eN
                  have hms : mapSigned burnMap = dedupByKey eN := by
                    rw [hmapN, show mapSigned [] = [] from rfl,
                      foldInsert_eq]
                    simp
                  calc (burnMap.map (fun kv => kv.2.2)).sum
                      = ((mapSigned burnMap).map Prod.snd).sum := by
                        rw [mapSigned, List.map_map]
                        rfl
                    _ = specBurnSum eN := by rw [hms]; rfl
              · rcases hpm : PubSubDB.putMessage shaTopic db timestamp
                    bm.topic { msg with burnAmount :=
                      (burnMap.map (fun kv => kv.2.2)).sum }
                    with e | dbx <;> simp only [hpm] at hok
                · exact Except.noConfusion (Option.some.inj hok)
                · have hpair := Except.ok.inj (Option.some.inj hok)
                  have hstored : stored = { msg with burnAmount :=
                      (burnMap.map (fun kv => kv.2.2)).sum } :=
                    (congrArg Prod.snd hpair).symm
                  refine ⟨eN, by rw [List.append_nil]; exact hsigN, ?_⟩
                  rw [hstored]
                  show (burnMap.map (fun kv => kv.2.2)).sum = specBurnSum eN
                  have hms : mapSigned burnMap = dedupByKey eN := by
                    rw [hmapN, show mapSigned [] = [] from rfl,
                      foldInsert_eq]
                    simp
                  calc (burnMap.map (fun kv => kv.2.2)).sum
                      = ((mapSigned burnMap).map Prod.snd).sum := by
                        rw [mapSigned, List.map_map]
                        rfl
                    _ = specBurnSum eN := by rw [hms]; rfl
              · rcases hce : checkBurnsExisting txid w.transactions burnMap
                    with _ | (e | burnMap') <;> simp only [hce] at hok
                · exact Option.noConfusion hok
                · exact Except.noConfusion (Option.some.inj hok)
                · have hpair := Except.ok.inj (Option.some.inj hok)
                  have hstored : stored = { w with
                      transactions := burnMap'.map (fun kv => kv.2.1),
                      burnAmount := (burnMap'.map (fun kv => kv.2.2)).sum } :=
                    (congrArg Prod.snd hpair).symm
                  obtain ⟨eO, hsigO, hmapO⟩ := checkBurnsExisting_ok txid
                    w.transactions burnMap burnMap' hce
                  refine ⟨eN ++ eO,
                    signedAll_append txid _ _ _ _ hsigN hsigO, ?_⟩
                  rw [hstored]
                  show (burnMap'.map (fun kv => kv.2.2)).sum =
                    specBurnSum (eN ++ eO)
                  have hms : mapSigned burnMap' = dedupByKey (eN ++ eO) := by
                    rw [hmapO, hmapN, show mapSigned [] = [] from rfl,
                      ← List.foldl_append, foldInsert_eq]
                    simp
                  calc (burnMap'.map (fun kv => kv.2.2)).sum
                      = ((mapSigned burnMap').map Prod.snd).sum := by
                        rw [mapSigned, List.map_map]
                        rfl
                    _ = specBurnSum (eN ++ eO) := by rw [hms]; rfl
              · rcases hpm : PubSubDB.putMessage shaTopic db timestamp
                    bm.topic { msg with burnAmount :=
                      (burnMap.map (fun kv => kv.2.2)).sum }
                    with e | dbx <;> simp only [hpm] at hok
                · exact Except.noConfusion (Option.some.inj hok)
                · have hpair := Except.ok.inj (Option.some.inj hok)
                  have hstored : stored = { msg with burnAmount :=
                      (burnMap.map (fun kv => kv.2.2)).sum } :=
                    (congrArg Prod.snd hpair).symm
                  refine ⟨eN, by rw [List.append_nil]; exact hsigN, ?_⟩
                  rw [hstored]
                  show (burnMap.map (fun kv => kv.2.2)).sum = specBurnSum eN
                  have hms : mapSigned burnMap = dedupByKey eN := by
                    rw [hmapN, show mapSigned [] = [] from rfl,
                      foldInsert_eq]
                    simp
                  calc (burnMap.map (fun kv => kv.2.2)).sum
                      = ((mapSigned burnMap).map Prod.snd).sum := by
                        rw [mapSigned, List.map_map]
                        rfl
                    _ = specBurnSum eN := by rw [hms]; rfl
            · rw [if_pos hsend] at hok
              exact Except.noConfusion (Option.some.inj hok)

/-- A concrete burn transaction: no inputs, one OP_RETURN `POND` upvote
output of value 0 committing to the digest `replicate 32 9`. -/
def c9tx : Bytes :=
  [1, 0, 0, 0, 0, 1, 0, 0, 0, 0, 0, 0, 0, 0, 40, 106, 4, 80, 79, 78, 68,
    81, 32] ++ List.replicate 32 9 ++ [0, 0, 0, 0]

/-- A concrete publish carrying that burn output. -/
def c9msg : AuthWrapperKS := ⟨[], List.replicate 32 9, [⟨c9tx, 0⟩], 77⟩

/-- The wrapper the handler stores for `c9msg` (burn amount recomputed). -/
def c9stored : AuthWrapperKS := ⟨[], List.replicate 32 9, [⟨c9tx, 0⟩], 0⟩

/-- The database state after the publish of `c9msg`. -/
def c9db' : PubSubDB :=
  ⟨[(c5sha ['a'] ++ beBytes 8 5 ++ List.replicate 32 9,
      List.replicate 32 9),
    (c5sha [] ++ beBytes 8 5 ++ List.replicate 32 9, List.replicate 32 9)],
  [(List.replicate 32 9, c9stored)]⟩

/-- Witness for `c9_burn_amount`: a concrete accepted publish. -/
theorem c9_burn_amount_witness :
    (putMessageKS mockSha (fun _ => List.replicate 32 1)
      (fun _ => some ⟨['a'], 0⟩) c5sha (fun _ => true) ⟨[], []⟩ c9msg 5 =
      some (.ok (c9db', c9stored))) ∧
    (∃ entries, signedAll (fun _ => List.replicate 32 1)
        (c9msg.transactions ++ existingBurns mockSha ⟨[], []⟩ c9msg) =
        some entries ∧
      c9stored.burnAmount = specBurnSum entries) :=
  ⟨by set_option maxRecDepth 100000 in rfl,
    c9_burn_amount mockSha (fun _ => List.replicate 32 1)
      (fun _ => some ⟨['a'], 0⟩) c5sha (fun _ => true) ⟨[], []⟩ c9msg 5
      c9db' c9stored (by set_option maxRecDepth 100000 in rfl)⟩

end Cashweb
